import Mathlib

/-!
Verification of the admaster-backend marketing-automation service.

This file gives a shallow embedding, in Lean 4, of the parts of the Python
code base that the verified claims are about:

* the shallow brand-intel extractor (`app/services/admaster_crawler_service.py`):
  description, brand-color and language extraction;
* the deep content crawler (`app/services/admaster_content_crawler_service.py`):
  URL admission filter and the breadth-first crawl loop;
* the campaign-creation pipeline (`app/services/campaign_service.py` together
  with `app/services/platform_intelligence_service.py` and
  `app/services/platform_service.py`);
* the campaign lookup `CampaignService.get_campaign_by_id`;
* the Clerk webhook handler (`app/api/v1/webhooks.py`).

Conventions of the embedding:

* Python strings are modelled as Lean `String`/`List Char`; the string
  operations used by the code (`strip`, `lower`, `upper`, `split`,
  `startswith`, `endswith`, substring containment) are implemented over
  `List Char`, restricted to the ASCII behaviour the code relies on.
* Parsed HTML (BeautifulSoup) is modelled as a flat list of element nodes in
  document order; every query performed by the embedded code (`find`,
  `find_all` filtered by tag name or attribute) is a flat query, which
  matches what the extractor functions do on the soup object.
* Database collections (Beanie/MongoDB) are modelled as Lean lists in
  insertion order; `find_one` is `List.find?`, a `$in` query is `List.filter`.
* External effects (HTTP fetches, the generative-AI call, language
  detection) are passed in as explicit function arguments or `Except`/
  `Option` values; `none`/`Except.error` models the Python exception paths.
* Fallible Python code is modelled with `Except`; numeric configuration that
  no claim depends on (budgets, scores — `float` in Python) is carried
  opaquely as `Int`.
-/

namespace AdMaster

/-! ## Character-level utilities (models of Python `str` methods)

The character classes are written as explicit lists so that membership is
decidable by evaluation; they coincide with the regex classes used by the
source (`[0-9a-fA-F]`, `\s`) and with ASCII case mapping. -/

/-- The ten decimal digit characters. -/
def decDigitChars : List Char :=
  ['0', '1', '2', '3', '4', '5', '6', '7', '8', '9']

/-- The 16 lowercase hex characters, the alphabet of normalized colors. -/
def lowerHexChars : List Char :=
  decDigitChars ++ ['a', 'b', 'c', 'd', 'e', 'f']

/-- The 22 characters matched by the regex class used for hex colors. -/
def hexDigitChars : List Char :=
  lowerHexChars ++ ['A', 'B', 'C', 'D', 'E', 'F']

def isHexC (c : Char) : Bool := hexDigitChars.contains c

/-- Whitespace characters of Python `str.strip` / regex `\s` (ASCII). -/
def wsChars : List Char := [' ', '\t', '\n', '\r', '\x0b', '\x0c']

def isWsC (c : Char) : Bool := wsChars.contains c

/-- ASCII upper/lower case pairs, modelling Python `str.lower` and `str.upper`
(the source only ever lowercases/uppercases ASCII identifiers and tags). -/
def casePairs : List (Char × Char) :=
  [('A', 'a'), ('B', 'b'), ('C', 'c'), ('D', 'd'), ('E', 'e'), ('F', 'f'),
   ('G', 'g'), ('H', 'h'), ('I', 'i'), ('J', 'j'), ('K', 'k'), ('L', 'l'),
   ('M', 'm'), ('N', 'n'), ('O', 'o'), ('P', 'p'), ('Q', 'q'), ('R', 'r'),
   ('S', 's'), ('T', 't'), ('U', 'u'), ('V', 'v'), ('W', 'w'), ('X', 'x'),
   ('Y', 'y'), ('Z', 'z')]

def lowerChar (c : Char) : Char :=
  match casePairs.find? (fun p => p.1 == c) with
  | some p => p.2
  | none => c

def upperChar (c : Char) : Char :=
  match casePairs.find? (fun p => p.2 == c) with
  | some p => p.1
  | none => c

/-- Python `str.lower`, ASCII fragment. -/
def lowerC (cs : List Char) : List Char := cs.map lowerChar

/-- Python `str.upper`, ASCII fragment. -/
def upperC (cs : List Char) : List Char := cs.map upperChar

/-- Python `str.strip()` (both-sided whitespace trim). -/
def trimC (cs : List Char) : List Char :=
  ((cs.dropWhile isWsC).reverse.dropWhile isWsC).reverse

/-- `pat` is a prefix of `cs` (Python `str.startswith`). -/
def startsWithC (cs pat : List Char) : Bool :=
  pat.isPrefixOf cs

/-- `pat` is a suffix of `cs` (Python `str.endswith`). -/
def endsWithC (cs pat : List Char) : Bool :=
  startsWithC cs.reverse pat.reverse

/-- `pat` occurs as a contiguous substring of `cs` (Python `in` on strings). -/
def containsSub (cs pat : List Char) : Bool :=
  match cs with
  | [] => startsWithC [] pat
  | _ :: rest => startsWithC cs pat || containsSub rest pat

/-- Case-insensitive prefix test (used for `re.I` literal alternatives). -/
def startsWithCI (cs pat : List Char) : Bool :=
  startsWithC (lowerC cs) (lowerC pat)

/-- Python `str.split()` with no argument: split on whitespace runs,
returning the non-empty words.  Structured with explicit fuel (initialised
to the length of the list, which each step strictly decreases). -/
def splitWsAux : Nat → List Char → List (List Char)
  | 0, _ => []
  | _, [] => []
  | fuel + 1, c :: cs =>
    if isWsC c then splitWsAux fuel cs
    else
      (c :: cs.takeWhile (fun d => !isWsC d)) ::
        splitWsAux fuel (cs.dropWhile (fun d => !isWsC d))

def splitWsC (cs : List Char) : List (List Char) := splitWsAux cs.length cs

/-- Number of whitespace-separated words (Python `len(s.split())`). -/
def wordCount (s : String) : Nat := (splitWsC s.data).length

/-- Join a list of strings with a separator (Python `sep.join`). -/
def joinSep (sep : String) : List String → String
  | [] => ""
  | [x] => x
  | x :: y :: rest => x ++ sep ++ joinSep sep (y :: rest)

/-! ## The HTML soup model

A parsed document is the flat list of its element nodes, in document order.
A node records its tag name, its attribute list and the list of its string
descendants (what BeautifulSoup `get_text` concatenates).  Every soup query
performed by the embedded services is flat (`find`/`find_all` by tag name or
attribute), so the tree structure is not needed. -/

structure Node where
  tag : String
  attrs : List (String × String)
  strings : List String
deriving Repr, DecidableEq

/-- `tag.get(key)`: first binding of an attribute, if present. -/
def attrGet (n : Node) (key : String) : Option String :=
  (n.attrs.find? (fun p => p.1 == key)).map (fun p => p.2)

/-- `tag.get(key, default)`. -/
def attrGetD (n : Node) (key default : String) : String :=
  (attrGet n key).getD default

/-- BeautifulSoup `get_text(separator)` without stripping: the descendant
strings joined by the separator. -/
def getTextSep (n : Node) (sep : String) : String :=
  joinSep sep n.strings

/-- BeautifulSoup `get_text(separator, strip=True)`: each descendant string
stripped, empty pieces dropped, the rest joined by the separator. -/
def getTextSepStrip (n : Node) (sep : String) : String :=
  joinSep sep ((n.strings.map (fun s => String.mk (trimC s.data))).filter (fun s => s ≠ ""))

/-! ## Shallow brand extractor (`AdMasterCrawlerService`)

Embeds `_extract_description`, `_extract_theme_colors`, `_normalize_hex`,
`_is_hex_color` and `_detect_language` from
`app/services/admaster_crawler_service.py` (leading underscores dropped). -/

/-- `_is_hex_color`: `re.fullmatch(r"#?[0-9a-fA-F]{3,8}", value.strip())`. -/
def is_hex_color (cs : List Char) : Bool :=
  let t := trimC cs
  let body := if startsWithC t (("#").data) then t.drop 1 else t
  decide (3 ≤ body.length) && decide (body.length ≤ 8) && body.all isHexC

/-- `_normalize_hex`: strip, lowercase, prepend `#` when missing
(`if not v.startswith("#")`), and clamp to 7 characters. -/
def normalize_hex (cs : List Char) : List Char :=
  let v := lowerC (trimC cs)
  let v2 := if startsWithC v (("#").data) then v else '#' :: v
  v2.take 7

/-! ### The regex scanners of `_extract_theme_colors`

Each of the regexes used by the source has the shape
`PREFIX \s* (#[0-9a-fA-F]{3,8})` (with the colon placed differently per
pattern).  `re.findall` scans left to right, emitting the capture group of
each non-overlapping match and resuming at the match end.  The matchers
below implement exactly those patterns; the commentary at each one records
why the backtracking of the Python engine collapses to the committed
first-match choice taken here. -/

/-- Take at most `n` leading hex digits. Returns the digits and the rest. -/
def takeHex : Nat → List Char → List Char × List Char
  | 0, cs => ([], cs)
  | _, [] => ([], [])
  | n + 1, c :: cs =>
    if isHexC c then
      let t := takeHex n cs
      (c :: t.1, t.2)
    else ([], c :: cs)

/-- Match `#[0-9a-fA-F]{3,8}` (greedy, as `{3,8}` is) at the head of the
input; on success return the captured color and the input after the match. -/
def matchHashHex (cs : List Char) : Option (List Char × List Char) :=
  match cs with
  | [] => none
  | c :: rest =>
    if c = '#' then
      let t := takeHex 8 rest
      if 3 ≤ t.1.length then some ('#' :: t.1, t.2) else none
    else none

/-- Match `\s*(#[0-9a-fA-F]{3,8})` at the head of the input. -/
def matchWsHashHex (cs : List Char) : Option (List Char × List Char) :=
  matchHashHex (cs.dropWhile isWsC)

/-- Match `\s*:\s*(#[0-9a-fA-F]{3,8})` at the head of the input. -/
def matchColonWsHashHex (cs : List Char) : Option (List Char × List Char) :=
  match cs.dropWhile isWsC with
  | [] => none
  | c :: rest => if c = ':' then matchWsHashHex rest else none

/-- Try one of the CSS-variable patterns
`--[^:]*KW[^:]*:\s*(#[0-9a-fA-F]{3,8})` (with `re.I`) at the head of the
input.  Since `[^:]*` cannot cross a colon, the `:` of the pattern is forced
to the first colon after the leading `--`, and the keyword must occur
(case-insensitively) in the colon-free span before it; no other backtracking
choice exists, so the match is committed. -/
def tryVarAt (kw : List Char) (cs : List Char) : Option (List Char × List Char) :=
  if startsWithC cs (("--").data) then
    let rest := cs.drop 2
    let span := rest.takeWhile (fun c => c ≠ ':')
    if containsSub (lowerC span) kw then
      match rest.dropWhile (fun c => c ≠ ':') with
      | [] => none
      | c :: rest2 => if c = ':' then matchWsHashHex rest2 else none
    else none
  else none

/-- Try `(?:background-|border-)?color\s*:\s*(#[0-9a-fA-F]{3,8})` (`re.I`)
at the head of the input.  The three literal alternatives
`background-color` / `border-color` / `color` are mutually exclusive as
prefixes of the input, so the ordered-alternation backtracking of the Python
engine coincides with this committed chain. -/
def tryInlineAt (cs : List Char) : Option (List Char × List Char) :=
  if startsWithCI cs ("background-color").data then matchColonWsHashHex (cs.drop 16)
  else if startsWithCI cs ("border-color").data then matchColonWsHashHex (cs.drop 12)
  else if startsWithCI cs ("color").data then matchColonWsHashHex (cs.drop 5)
  else none

/-- Try `(?:background-|border-|color)\s*:\s*(#[0-9a-fA-F]{3,8})` (`re.I`)
at the head of the input (note: the source's pattern alternates the bare
prefixes `background-` and `border-`, not `background-color`).  The three
alternatives are again mutually exclusive as prefixes. -/
def tryCssAt (cs : List Char) : Option (List Char × List Char) :=
  if startsWithCI cs ("background-").data then matchColonWsHashHex (cs.drop 11)
  else if startsWithCI cs ("border-").data then matchColonWsHashHex (cs.drop 7)
  else if startsWithCI cs ("color").data then matchColonWsHashHex (cs.drop 5)
  else none

/-- `re.findall` driver: scan left to right, at each position attempting the
matcher; on a match emit the capture and resume after the match, otherwise
advance one character.  Fuel is initialised to the input length; every step
strictly shortens the input (each successful match consumes at least the
four characters `#` plus three hex digits), so the fuel never runs out. -/
def scanAux (tryAt : List Char → Option (List Char × List Char)) :
    Nat → List Char → List (List Char)
  | 0, _ => []
  | _, [] => []
  | fuel + 1, c :: cs =>
    match tryAt (c :: cs) with
    | some (cap, rest) => cap :: scanAux tryAt fuel rest
    | none => scanAux tryAt fuel cs

def scanAll (tryAt : List Char → Option (List Char × List Char))
    (cs : List Char) : List (List Char) :=
  scanAux tryAt cs.length cs

/-- Shape of every capture emitted by the color scanners: a `#` followed by
3 to 8 hex digits (of either case). -/
def GoodCap (cap : List Char) : Prop :=
  ∃ body, cap = '#' :: body ∧ 3 ≤ body.length ∧ body.length ≤ 8 ∧
    ∀ c ∈ body, isHexC c = true

/-! ### `_extract_theme_colors` -/

/-- The keywords of the five CSS-variable patterns, in source order. -/
def varKeywords : List (List Char) :=
  [("primary").data, ("brand").data, ("main").data, ("accent").data, ("color").data]

/-- The neutral colors filtered out of plain CSS declarations. -/
def neutralColors : List (List Char) :=
  [("#ffffff").data, ("#000000").data, ("#f5f5f5").data, ("#e5e5e5").data,
   ("#cccccc").data, ("#999999").data, ("#666666").data, ("#333333").data]

/-- The meta-tag name fragments of priority 5 (exact case, as in the
source; the first can never occur in a lowercased name). -/
def colorMetaNames : List (List Char) :=
  [("msapplication-TileColor").data, ("apple-mobile-web-app-status-bar-style").data]

/-- `style.get_text("\n")` of a `<style>` node. -/
def styleText (n : Node) : List Char := (getTextSep n "\n").data

/-- Priority 1: `<meta name="theme-color">` contents that pass
`_is_hex_color`, normalized. -/
def themeColorMetaColors (doc : List Node) : List (List Char) :=
  (doc.filter (fun n => n.tag == "meta" && attrGet n "name" == some "theme-color")).filterMap
    (fun n =>
      let content := trimC (attrGetD n "content" "").data
      if is_hex_color content then some (normalize_hex content) else none)

/-- Priority 2: CSS-variable declarations in `<style>` blocks (per style
block, the five patterns in order), normalized. -/
def cssVarColors (doc : List Node) : List (List Char) :=
  (doc.filter (fun n => n.tag == "style")).flatMap (fun st =>
    varKeywords.flatMap (fun kw =>
      (scanAll (tryVarAt kw) (styleText st)).map normalize_hex))

/-- Priority 3: inline `style` attributes, normalized. -/
def inlineStyleColors (doc : List Node) : List (List Char) :=
  (doc.filter (fun n => (attrGet n "style").isSome)).flatMap (fun el =>
    (scanAll tryInlineAt (attrGetD el "style" "").data).map normalize_hex)

/-- Priority 4: plain color declarations in `<style>` blocks, normalized,
with the neutral colors filtered out. -/
def cssDeclColors (doc : List Node) : List (List Char) :=
  (doc.filter (fun n => n.tag == "style")).flatMap (fun st =>
    (scanAll tryCssAt (styleText st)).filterMap (fun m =>
      let hexColor := normalize_hex m
      if neutralColors.contains hexColor then none else some hexColor))

/-- Priority 5: other color-bearing meta tags, normalized. -/
def colorMetaColors (doc : List Node) : List (List Char) :=
  (doc.filter (fun n => n.tag == "meta")).filterMap (fun m =>
    let nameLower := lowerC (attrGetD m "name" "").data
    if colorMetaNames.any (fun cn => containsSub nameLower cn) then
      let content := trimC (attrGetD m "content" "").data
      if is_hex_color content then some (normalize_hex content) else none
    else none)

/-- All color candidates, in the order the source appends them. -/
def collectColorCandidates (doc : List Node) : List (List Char) :=
  themeColorMetaColors doc ++ cssVarColors doc ++ inlineStyleColors doc ++
    cssDeclColors doc ++ colorMetaColors doc

/-- The source's final dedup loop: `for c in colors: if c not in dedup:
dedup.append(c)` — keep the first occurrence of each element. `seen` is the
output accumulated so far (only its membership is consulted).  (Also used,
genericized, to model Python-set insertion order in the deep crawler.) -/
def dedupFirstSeen {α : Type} [DecidableEq α] (seen : List α) : List α → List α
  | [] => []
  | c :: rest =>
    if c ∈ seen then dedupFirstSeen seen rest
    else c :: dedupFirstSeen (c :: seen) rest

/-- `_extract_theme_colors`: collect, dedup preserving first-seen order,
return at most 4. -/
def extract_theme_colors (doc : List Node) : List (List Char) :=
  (dedupFirstSeen [] (collectColorCandidates doc)).take 4

/-! ### `_extract_description` -/

/-- `soup.find("meta", attrs={"name": "description"})`. -/
def findMetaNameDescription (doc : List Node) : Option Node :=
  doc.find? (fun n => n.tag == "meta" && attrGet n "name" == some "description")

/-- `soup.find("meta", attrs={"property": "og:description"})`. -/
def findMetaOgDescription (doc : List Node) : Option Node :=
  doc.find? (fun n => n.tag == "meta" && attrGet n "property" == some "og:description")

/-- The paragraph texts of the document: `p.get_text(" ", strip=True)` for
each `<p>`. -/
def paragraphTexts (doc : List Node) : List String :=
  (doc.filter (fun n => n.tag == "p")).map (fun p => getTextSepStrip p " ")

/-- The paragraphs with at least 6 whitespace-separated words. -/
def longParagraphs (doc : List Node) : List String :=
  (paragraphTexts doc).filter (fun p => 6 ≤ wordCount p)

/-- Python `max(paragraphs, key=len)`: the first string of maximal length. -/
def maxByLen (acc : String) : List String → String
  | [] => acc
  | x :: rest => if acc.length < x.length then maxByLen x rest else maxByLen acc rest

/-- The tag consulted for the description:
`soup.find(name="description") or soup.find(property="og:description")` —
the `or` only reaches the og tag when no `name="description"` tag exists at
all (even one with empty or missing content shadows it). -/
def descriptionMetaTag (doc : List Node) : Option Node :=
  match findMetaNameDescription doc with
  | some t => some t
  | none => findMetaOgDescription doc

/-- `_extract_description`: prefer the description meta tag's `content` when
that is present and non-empty (stripped); otherwise fall back to the longest
paragraph with at least 6 words, or the empty string. -/
def extract_description (doc : List Node) : String :=
  let fallback := match longParagraphs doc with
    | [] => ""
    | p :: rest => maxByLen p rest
  match descriptionMetaTag doc with
  | some t =>
    match attrGet t "content" with
    | some c => if c ≠ "" then String.mk (trimC c.data) else fallback
    | none => fallback
  | none => fallback

/-- The description meta tag yields no usable content (absent tag, or tag
without a `content` attribute, or empty content): the extractor falls back
to the paragraph heuristic. -/
def metaDescriptionUnusable (doc : List Node) : Prop :=
  match descriptionMetaTag doc with
  | none => True
  | some t =>
    match attrGet t "content" with
    | none => True
    | some c => c = ""

/-! ### `_detect_language` -/

/-- `_detect_language`.  `detect` models the `langdetect.detect` call:
`none` stands for a raised `LangDetectException` (swallowed by the source,
which then falls through to the `"en"` default). -/
def detect_language (detect : String → Option String) (text : String)
    (doc : List Node) : String :=
  let fallback :=
    if text ≠ "" && decide (10 ≤ wordCount text) then
      match detect text with
      | some r => r
      | none => "en"
    else "en"
  match doc.find? (fun n => n.tag == "html") with
  | some h =>
    match attrGet h "lang" with
    | some l => if l ≠ "" then String.mk (lowerC (l.data.takeWhile (fun c => c ≠ '-'))) else fallback
    | none => fallback
  | none => fallback

/-- The `<html>` element's `lang` attribute is unusable (no `<html>` tag, no
`lang` attribute, or an empty value): language detection falls back to the
description text. -/
def htmlLangUnusable (doc : List Node) : Prop :=
  match doc.find? (fun n => n.tag == "html") with
  | none => True
  | some h =>
    match attrGet h "lang" with
    | none => True
    | some l => l = ""

/-! ### Spec-side predicates for the color claims -/

/-- The spec's format for a normalized brand color: `#[0-9a-f]{6}`
(7 characters, lowercase, no alpha channel). -/
def matchesSixHex (cs : List Char) : Bool :=
  match cs with
  | [] => false
  | c :: body =>
    (c == '#') && decide (body.length = 6) && body.all (fun d => lowerHexChars.contains d)

/-- The format the extractor actually guarantees: `#[0-9a-f]{3,6}` — a `#`
followed by 3 to 6 lowercase hex digits (3-to-5-digit CSS shorthand is kept
as-is; digits beyond the sixth, e.g. an alpha channel, are truncated). -/
def matchesShortHex (cs : List Char) : Bool :=
  match cs with
  | [] => false
  | c :: body =>
    (c == '#') && decide (3 ≤ body.length) && decide (body.length ≤ 6) &&
      body.all (fun d => lowerHexChars.contains d)

/-- Index of the first occurrence of `a` in `l` (length of `l` when absent);
used to state that the color list preserves first-seen candidate order. -/
def firstIdx {α : Type} [DecidableEq α] (l : List α) (a : α) : Nat :=
  match l with
  | [] => 0
  | x :: rest => if x = a then 0 else firstIdx rest a + 1

/-! ## Campaign lookup (`CampaignService.get_campaign_by_id`)

The persisted campaign document, reduced to the fields this lookup consults:
its assigned object id (canonically 24 lowercase hex characters, as rendered
by the driver) and its owner. -/

structure StoredCampaign where
  oid : String
  user_id : String
deriving Repr, DecidableEq

/-- A string accepted by `bson.ObjectId(...)`: exactly 24 hex characters
(`ObjectId` raises `InvalidId` otherwise, which the service catches). -/
def isValidObjectId (s : String) : Bool :=
  decide (s.length = 24) && s.data.all isHexC

/-- `ObjectId(campaign_id)` as a partial normalization: `none` models the
caught `InvalidId`/`ValueError`; on success the id is canonicalized to
lowercase (ObjectId comparison is on the decoded bytes, so hex case is
irrelevant). -/
def parseObjectId (s : String) : Option String :=
  if isValidObjectId s then some (String.mk (lowerC s.data)) else none

/-- `get_campaign_by_id`: parse the id (malformed → `None`), look the
campaign up by `_id` (missing → `None`), and return it only when its
`user_id` equals the requesting user's (mismatch → `None`). -/
def get_campaign_by_id (campaigns : List StoredCampaign)
    (campaign_id user_id : String) : Option StoredCampaign :=
  match parseObjectId campaign_id with
  | none => none
  | some oid =>
    match campaigns.find? (fun c => c.oid == oid) with
    | none => none
    | some campaign =>
      if campaign.user_id ≠ user_id then none else some campaign

/-! ## Clerk webhook handler (`app/api/v1/webhooks.py`)

The handler reads only the request's JSON body (`await request.json()`); the
embedding nevertheless takes the whole request — headers included — so that
insensitivity to the signature headers is a statable property.  A missing
JSON key (`data["id"]`, `data["email_addresses"][0]`) raises inside the
`try` and is reported as a 500 error (`Except.error`); option fields model
`dict.get`. -/

structure WebhookUser where
  clerk_id : String
  email : String
  first_name : Option String
  last_name : Option String
  image_url : Option String
deriving Repr, DecidableEq

structure ClerkEventData where
  id : Option String
  email_addresses : List String
  first_name : Option String
  last_name : Option String
  image_url : Option String
deriving Repr, DecidableEq

structure ClerkPayload where
  eventType : Option String
  data : ClerkEventData
deriving Repr, DecidableEq

structure WebhookRequest where
  body : ClerkPayload
  headers : List (String × String)
deriving Repr, DecidableEq

structure WebhookResponse where
  status : String
  event : Option String
deriving Repr, DecidableEq

/-- `UserService.create_user`: unconditional insert. -/
def create_user (users : List WebhookUser) (u : WebhookUser) : List WebhookUser :=
  users ++ [u]

/-- `UserService.update_user`: find the first user with the clerk id and
overwrite the provided fields; a missing user is a silent no-op (the service
returns `None`, the handler still answers success). -/
def update_user (users : List WebhookUser) (clerk_id email : String)
    (first last image : Option String) : List WebhookUser :=
  match users with
  | [] => []
  | u :: rest =>
    if u.clerk_id == clerk_id then
      { u with email := email, first_name := first, last_name := last,
               image_url := image } :: rest
    else u :: update_user rest clerk_id email first last image

/-- `UserService.delete_user`: delete the first user with the clerk id; a
missing user is a silent no-op (returns `False`, handler answers success). -/
def delete_user (users : List WebhookUser) (clerk_id : String) : List WebhookUser :=
  match users with
  | [] => []
  | u :: rest =>
    if u.clerk_id == clerk_id then rest
    else u :: delete_user rest clerk_id

/-- The `clerk_webhook` endpoint: dispatch on `payload.get("type")`,
upsert/delete the local user store accordingly, acknowledge unknown event
types with a success response.  `verify_webhook_signature` is never called;
`req.headers` is never consulted. -/
def clerk_webhook (req : WebhookRequest) (users : List WebhookUser) :
    List WebhookUser × Except String WebhookResponse :=
  let payload := req.body
  let eventType := payload.eventType
  let data := payload.data
  if eventType == some "user.created" then
    match data.id, data.email_addresses.head? with
    | some cid, some email =>
      (create_user users ⟨cid, email, data.first_name, data.last_name, data.image_url⟩,
        Except.ok ⟨"success", eventType⟩)
    | _, _ => (users, Except.error "Webhook processing failed")
  else if eventType == some "user.updated" then
    match data.email_addresses.head?, data.id with
    | some email, some cid =>
      (update_user users cid email data.first_name data.last_name data.image_url,
        Except.ok ⟨"success", eventType⟩)
    | _, _ => (users, Except.error "Webhook processing failed")
  else if eventType == some "user.deleted" then
    match data.id with
    | some cid => (delete_user users cid, Except.ok ⟨"success", eventType⟩)
    | none => (users, Except.error "Webhook processing failed")
  else
    (users, Except.ok ⟨"success", eventType⟩)

/-! ## The campaign-creation pipeline

Embeds `CampaignService.create_campaign`
(`app/services/campaign_service.py`) together with
`PlatformIntelligenceService.get_best_platform_with_analysis`
(`app/services/platform_intelligence_service.py`) and the
`PlatformService` queries it uses. The external Gemini call
(`AIPlatformAnalyzer.analyze_and_recommend`) is passed in as an
`Except String AIResult` value: `Except.error` models any exception raised
by the crawl/prompt/request/JSON-parsing work inside the analyzer, and a
successful value is the parsed response dictionary. Floats (scores,
budgets) are carried opaquely as `Int`; no claim depends on them. -/

inductive ConversionGoal where
  | websiteTraffic
  | brandAwareness
  | onlineLeads
  | onlineSales
deriving Repr, DecidableEq

inductive ConversionGoalIcon where
  | cursorClick
  | eye
  | users
  | shoppingCart
deriving Repr, DecidableEq

inductive BiddingStrategyType where
  | maximizeClicks
deriving Repr, DecidableEq

inductive CampaignStatus where
  | draft
deriving Repr, DecidableEq

/-- `app/core/exceptions.py` taxonomy restricted to what this pipeline
raises, plus `valueError` for plain `ValueError`s from the intelligence
service (which propagate uncaught). -/
inductive AppError where
  | notFound (resource : String) (resource_id : String)
  | validation (message : String)
  | internal (message : String)
  | valueError (message : String)
deriving Repr, DecidableEq

structure Platform where
  platform_id : Int
  name : String
  is_active : Bool
deriving Repr, DecidableEq

structure Business where
  id : String
  name : String
  industry : Option String
  website : Option String
deriving Repr, DecidableEq

structure Brand where
  business_id : String
  description : String
deriving Repr, DecidableEq

/-- `CampaignCreate` (`app/schemas/campaign.py`), with location payloads
carried opaquely (they are passed through `model_dump` unchanged). -/
structure CampaignCreate where
  business_id : String
  title : String
  url : String
  phone : Option String
  conversion_goal : Option ConversionGoal
  language : String
  locations : List String
  advertising_goal : Option String
deriving Repr, DecidableEq

structure DemographicsLanguage where
  id : String
  text : String
  iso : String
deriving Repr, DecidableEq

structure BiddingStrategyInfo where
  name : String
  value : String
  strategyType : String
deriving Repr, DecidableEq

structure Campaign where
  business_id : String
  user_id : String
  title : String
  url : String
  phone : Option String
  conversion_goal : ConversionGoal
  conversion_goal_icon : ConversionGoalIcon
  can_have_conversions : Bool
  data_source : String
  budget_currency : String
  daily_budget : Int
  bidding_strategy_type : BiddingStrategyType
  supported_bidding_strategy_types : List BiddingStrategyInfo
  recommended_platform_id : Option Int
  supported_platform_ids : List Int
  demographics_languages : List DemographicsLanguage
  demographics_location_areas : List String
  website_industry : Option String
  status : CampaignStatus
deriving Repr, DecidableEq

/-- The database state the pipeline touches. -/
structure DB where
  businesses : List Business
  brands : List Brand
  platforms : List Platform
  campaigns : List Campaign
deriving Repr, DecidableEq

/-- Environment/configuration consulted via `os.getenv` and `settings`. -/
structure Env where
  gemini_available : Bool
  google_api_key : Option String
  gemini_api_key : Option String
  gemini_model : Option String
  default_model : Option String
  settings_default_currency : Option String
  settings_default_daily_budget : Option Int
deriving Repr, DecidableEq

/-- One entry of the parsed AI response's `all_recommendations` list. -/
structure AIRec where
  platform_id : Int
  name : String
  score : Int
  reasons : List String
  ai_reasoning : String
deriving Repr, DecidableEq

/-- The parsed Gemini response (already validated to carry a
`recommended_platform_id` by `_parse_gemini_response`). -/
structure AIResult where
  recommended_platform_id : Int
  recommended_platform_name : String
  all_recommendations : List AIRec
  ai_reasoning : String
deriving Repr, DecidableEq

/-- The dictionary returned by `get_best_platform_with_analysis`. -/
structure RecommendationResult where
  platform : Platform
  score : Int
  reasons : List String
  ai_reasoning : String
  all_recommendations : List AIRec
deriving Repr, DecidableEq

/-- `PlatformService.get_platform_by_id`: `find_one(platform_id == id)`. -/
def get_platform_by_id (db : DB) (pid : Int) : Option Platform :=
  db.platforms.find? (fun p => p.platform_id == pid)

/-- `PlatformService.get_platforms_by_ids`: the `$in` query returns the
platform documents whose id is in the list, in collection order. -/
def get_platforms_by_ids (db : DB) (ids : List Int) : List Platform :=
  db.platforms.filter (fun p => ids.contains p.platform_id)

/-- `BrandService.get_brand_by_business_id`: `find_one` (read-only). -/
def get_brand_by_business_id (db : DB) (business_id : String) : Option Brand :=
  db.brands.find? (fun b => b.business_id == business_id)

/-- `os.getenv("GEMINI_MODEL") or os.getenv("DEFAULT_MODEL")`. -/
def envModelName (env : Env) : Option String :=
  match env.gemini_model with
  | some m => some m
  | none => env.default_model

/-- `os.getenv("GOOGLE_API_KEY") or os.getenv("GEMINI_API_KEY")`. -/
def envApiKey (env : Env) : Option String :=
  match env.google_api_key with
  | some k => some k
  | none => env.gemini_api_key

/-- `PlatformIntelligenceService.get_best_platform_with_analysis`:
precondition checks (package availability, API key, model name), the
analyzer call, then the cross-reference of the RECOMMENDED id against the
platform collection and the lookup of the recommended entry in the response
list. The `$in` fetch of all recommended ids is performed but its result is
unused by the returned dictionary. -/
def get_best_platform_with_analysis (env : Env) (db : DB)
    (ai : Except String AIResult) (brand : Option Brand)
    (business_id : String) : Except AppError RecommendationResult :=
  if !env.gemini_available then
    Except.error (AppError.valueError
      "Gemini AI package is not installed. Please install google-genai package.")
  else
    match envApiKey env with
    | none => Except.error (AppError.valueError
        "GOOGLE_API_KEY or GEMINI_API_KEY environment variable is required. Please add it to your .env file.")
    | some _ =>
      -- `if not brand:` refetch — read-only, result only feeds the prompt
      let _brand2 := match brand with
        | some b => some b
        | none => get_brand_by_business_id db business_id
      match envModelName env with
      | none => Except.error (AppError.valueError
          "GEMINI_MODEL or DEFAULT_MODEL environment variable is required. Please add it to your .env file.")
      | some _ =>
        match ai with
        | Except.error e => Except.error (AppError.valueError e)
        | Except.ok r =>
          match get_platform_by_id db r.recommended_platform_id with
          | none => Except.error (AppError.valueError
              ("AI recommended platform ID " ++ toString r.recommended_platform_id ++
                " not found in database"))
          | some recommended_platform =>
            let all_platform_ids := r.all_recommendations.map (fun rec => rec.platform_id)
            let _all_platforms := get_platforms_by_ids db all_platform_ids
            match r.all_recommendations.find?
                (fun rec => rec.platform_id == recommended_platform.platform_id) with
            | none => Except.error (AppError.valueError
                "Recommended platform not found in AI recommendations")
            | some recommended_rec =>
              Except.ok
                { platform := recommended_platform
                  score := recommended_rec.score
                  reasons := recommended_rec.reasons
                  ai_reasoning := r.ai_reasoning
                  all_recommendations := r.all_recommendations }

/-- `CampaignService._map_advertising_goal_to_conversion_goal`. -/
def map_advertising_goal_to_conversion_goal (s : String) :
    Except AppError ConversionGoal :=
  if s = "website-traffic" then Except.ok ConversionGoal.websiteTraffic
  else if s = "brand-awareness" then Except.ok ConversionGoal.brandAwareness
  else if s = "online-leads" then Except.ok ConversionGoal.onlineLeads
  else if s = "online-sales" then Except.ok ConversionGoal.onlineSales
  else Except.error (AppError.validation ("Invalid advertising goal: " ++ s))

/-- `CampaignService._get_conversion_goal_icon` (total on the enum; the
source's `raise` branch is unreachable). -/
def get_conversion_goal_icon (g : ConversionGoal) : ConversionGoalIcon :=
  match g with
  | ConversionGoal.websiteTraffic => ConversionGoalIcon.cursorClick
  | ConversionGoal.brandAwareness => ConversionGoalIcon.eye
  | ConversionGoal.onlineLeads => ConversionGoalIcon.users
  | ConversionGoal.onlineSales => ConversionGoalIcon.shoppingCart

/-- The goal-resolution step of `create_campaign`: a non-empty
`advertising_goal` string (Python truthiness) is mapped, else an explicit
`conversion_goal` is used, else a validation error. -/
def resolveConversionGoal (cd : CampaignCreate) : Except AppError ConversionGoal :=
  match cd.advertising_goal with
  | some s =>
    if s ≠ "" then map_advertising_goal_to_conversion_goal s
    else
      match cd.conversion_goal with
      | some g => Except.ok g
      | none => Except.error (AppError.validation
          "Either advertising_goal or conversion_goal must be provided")
  | none =>
    match cd.conversion_goal with
    | some g => Except.ok g
    | none => Except.error (AppError.validation
        "Either advertising_goal or conversion_goal must be provided")

/-- `app/core/constants.py`. -/
def CONSTANT_DEFAULT_CURRENCY : String := "INR"

def CONSTANT_DEFAULT_DAILY_BUDGET : Int := 0

/-- `settings.DEFAULT_CURRENCY or CONSTANT_DEFAULT_CURRENCY` (Python `or`:
`None` and the empty string both fall back). -/
def effectiveCurrency (env : Env) : String :=
  match env.settings_default_currency with
  | some s => if s ≠ "" then s else CONSTANT_DEFAULT_CURRENCY
  | none => CONSTANT_DEFAULT_CURRENCY

/-- `settings.DEFAULT_DAILY_BUDGET if ... is not None else CONSTANT_...`. -/
def effectiveDailyBudget (env : Env) : Int :=
  match env.settings_default_daily_budget with
  | some b => b
  | none => CONSTANT_DEFAULT_DAILY_BUDGET

/-- `CampaignService.create_campaign`.  Returns the post-state of the
database together with the outcome; every error path leaves the database
exactly as it was (the single write is the final `campaign.insert()`). -/
def create_campaign (env : Env) (db : DB) (ai : Except String AIResult)
    (cd : CampaignCreate) (user_id : String) :
    DB × Except AppError Campaign :=
  match db.businesses.find? (fun b => b.id == cd.business_id) with
  | none => (db, Except.error (AppError.notFound "Business" cd.business_id))
  | some business =>
    match resolveConversionGoal cd with
    | Except.error e => (db, Except.error e)
    | Except.ok conversion_goal =>
      let conversion_goal_icon := get_conversion_goal_icon conversion_goal
      let brand := get_brand_by_business_id db cd.business_id
      match envModelName env with
      | none => (db, Except.error (AppError.internal
          "GEMINI_MODEL or DEFAULT_MODEL environment variable is required. Please add it to your .env file."))
      | some _model_name =>
        match get_best_platform_with_analysis env db ai brand cd.business_id with
        | Except.error e => (db, Except.error e)
        | Except.ok recommendation_result =>
          let recommended_platform := recommendation_result.platform
          let all_recommended_platform_ids :=
            recommendation_result.all_recommendations.map (fun rec => rec.platform_id)
          let all_recommended_platforms :=
            get_platforms_by_ids db all_recommended_platform_ids
          let demographics_languages : List DemographicsLanguage :=
            [{ id := cd.language, text := String.mk (upperC cd.language.data),
               iso := cd.language }]
          let campaign : Campaign :=
            { business_id := cd.business_id
              user_id := user_id
              title := cd.title
              url := cd.url
              phone := cd.phone
              conversion_goal := conversion_goal
              conversion_goal_icon := conversion_goal_icon
              can_have_conversions := false
              data_source := "user"
              budget_currency := effectiveCurrency env
              daily_budget := effectiveDailyBudget env
              bidding_strategy_type := BiddingStrategyType.maximizeClicks
              supported_bidding_strategy_types :=
                [{ name := "MAXIMIZE_CLICKS", value := "maximize_clicks",
                   strategyType := "target_amount" }]
              recommended_platform_id := some recommended_platform.platform_id
              supported_platform_ids :=
                all_recommended_platforms.map (fun p => p.platform_id)
              demographics_languages := demographics_languages
              demographics_location_areas := cd.locations
              website_industry := business.industry
              status := CampaignStatus.draft }
          ({ db with campaigns := db.campaigns ++ [campaign] }, Except.ok campaign)

/-! ## Deep content crawler (`AdMasterContentCrawlerService`)

`urllib.parse` is modelled for the URL shapes the crawler handles: the
standard five components (scheme, netloc, path, query, fragment), with the
scheme accepted exactly when it is a non-empty run of `[A-Za-z][A-Za-z0-9+.-]*`
before the first colon (lowercased, as `urlsplit` does), the netloc read
after a leading `//` up to the first `/?#`, then the fragment split at the
first `#` and the query at the first `?`.  `params` (`;`) and IPv6
bracket handling are not modelled; no claim depends on them. -/

def digitChars : List Char :=
  decDigitChars

def isAlphaC (c : Char) : Bool :=
  casePairs.any (fun p => p.1 == c || p.2 == c)

/-- The characters allowed in a URL scheme after the first letter. -/
def isSchemeChar (c : Char) : Bool :=
  isAlphaC c || digitChars.contains c || c = '+' || c = '-' || c = '.'

structure UrlParts where
  scheme : List Char
  netloc : List Char
  path : List Char
  query : List Char
  fragment : List Char
deriving Repr, DecidableEq

/-- Split off a valid scheme (lowercased) and the remainder; no valid
scheme leaves the input untouched. -/
def splitScheme (url : List Char) : List Char × List Char :=
  let pre := url.takeWhile (fun c => c ≠ ':')
  match url.dropWhile (fun c => c ≠ ':') with
  | [] => ([], url)
  | _ :: rest =>
    match pre with
    | [] => ([], url)
    | c0 :: _ =>
      if isAlphaC c0 && pre.all isSchemeChar then (lowerC pre, rest)
      else ([], url)

/-- Split off the netloc after a leading `//`. -/
def splitNetloc (cs : List Char) : List Char × List Char :=
  if startsWithC cs (("//").data) then
    let rest := cs.drop 2
    (rest.takeWhile (fun c => c ≠ '/' && c ≠ '?' && c ≠ '#'),
      rest.dropWhile (fun c => c ≠ '/' && c ≠ '?' && c ≠ '#'))
  else ([], cs)

/-- Split at the first occurrence of a delimiter (delimiter dropped); an
absent delimiter leaves the second component empty. -/
def splitFirst (delim : Char) (cs : List Char) : List Char × List Char :=
  (cs.takeWhile (fun c => c ≠ delim),
    (cs.dropWhile (fun c => c ≠ delim)).drop 1)

/-- `urllib.parse.urlparse` (see the section comment for scope). -/
def urlparseC (url : List Char) : UrlParts :=
  let s := splitScheme url
  let n := splitNetloc s.2
  let f := splitFirst '#' n.2
  let q := splitFirst '?' f.1
  ⟨s.1, n.1, q.1, q.2, f.2⟩

/-- `urllib.parse.urlunsplit`. -/
def urlunsplitC (scheme netloc path query fragment : List Char) : List Char :=
  let url := path
  let url := if netloc ≠ [] || startsWithC url (("//").data) then
      ('/' :: '/' :: netloc) ++
        (if url ≠ [] && !startsWithC url (("/").data) then '/' :: url else url)
    else url
  let url := if scheme ≠ [] then scheme ++ (':' :: url) else url
  let url := if query ≠ [] then url ++ ('?' :: query) else url
  if fragment ≠ [] then url ++ ('#' :: fragment) else url

/-- Split a list at every occurrence of a delimiter (Python
`str.split(delim)`): always at least one piece. -/
def splitAllC (delim : Char) : List Char → List (List Char)
  | [] => [[]]
  | c :: rest =>
    let r := splitAllC delim rest
    if c = delim then [] :: r
    else
      match r with
      | [] => [[c]]
      | h :: t => (c :: h) :: t

/-- The segment-resolution loop of `urljoin`: `..` pops (ignoring underflow),
`.` is dropped, anything else is appended. -/
def resolveSegments (segments : List (List Char)) : List (List Char) :=
  segments.foldl
    (fun resolved seg =>
      if seg = ("..").data then resolved.dropLast
      else if seg = (".").data then resolved
      else resolved ++ [seg])
    []

/-- Schemes for which relative references are merged (`uses_relative`),
restricted to those that can appear here. -/
def usesRelative : List (List Char) :=
  [[], ("ftp").data, ("http").data, ("https").data, ("file").data, ("ws").data,
    ("wss").data]

/-- `urllib.parse.urljoin` for the modelled URL shapes: an absolute
reference of a different (or non-relative) scheme wins outright; a netloc
in the reference restarts at that authority; an empty path keeps the base
path (and its query when the reference has none); otherwise the paths are
merged with `.`/`..` resolution. -/
def urljoinC (base ref : List Char) : List Char :=
  if base = [] then ref
  else if ref = [] then base
  else
    let b := urlparseC base
    let r0 := urlparseC ref
    let scheme := if r0.scheme = [] then b.scheme else r0.scheme
    if scheme ≠ b.scheme || !usesRelative.contains scheme then ref
    else if r0.netloc ≠ [] then
      urlunsplitC scheme r0.netloc r0.path r0.query r0.fragment
    else if r0.path = [] then
      urlunsplitC scheme b.netloc b.path
        (if r0.query = [] then b.query else r0.query) r0.fragment
    else
      let base_parts0 := splitAllC '/' b.path
      let base_parts := if base_parts0.getLast? = some [] then base_parts0
        else base_parts0.dropLast
      let segments := if startsWithC r0.path (("/").data) then splitAllC '/' r0.path
        else base_parts ++ splitAllC '/' r0.path
      let resolved := resolveSegments segments
      let resolved := if segments.getLast? = some ((".").data) ||
          segments.getLast? = some (("..").data) then resolved ++ [[]] else resolved
      let path := List.intercalate (("/").data) resolved
      let path := if path = [] then ("/").data else path
      urlunsplitC scheme b.netloc path r0.query r0.fragment

/-- `.pdf`-style denylisted extensions of `_is_valid_url`. -/
def skipExtensions : List String :=
  [".pdf", ".jpg", ".jpeg", ".png", ".gif", ".svg", ".css", ".js", ".zip",
    ".exe", ".mp4", ".mp3", ".avi", ".mov"]

/-- Denylisted path fragments of `_is_valid_url` (substring match against
the whole lowercased URL, as in the source). -/
def skipPaths : List String :=
  ["/login", "/signup", "/logout", "/admin", "/api", "/cdn", "/static",
    "/assets", "/wp-admin", "/wp-content"]

/-- `_is_valid_url(url, base_url)`: requires a `:`, an `https`-or-absent
scheme, a netloc equal to the base URL's, no denylisted extension suffix
and no denylisted path fragment. -/
def is_valid_url (url base_url : String) : Bool :=
  if ':' ∉ url.data then false
  else
    let parsed := urlparseC url.data
    let base_parsed := urlparseC base_url.data
    if parsed.scheme ≠ [] ∧ lowerC parsed.scheme ≠ ("https").data then false
    else if parsed.netloc = [] then false
    else if parsed.netloc ≠ base_parsed.netloc then false
    else if skipExtensions.any (fun e => endsWithC (lowerC url.data) e.data) then false
    else if skipPaths.any (fun sp => containsSub (lowerC url.data) sp.data) then false
    else true

/-- One `href` of `_extract_internal_links`: skip empty/whitespace hrefs,
absolutize against the page URL, strip the fragment, force `https` (an
absent scheme is rebuilt as `https://netloc-or-base-domain + path + query`,
a non-`https` scheme is skipped), require a `:`, then apply
`_is_valid_url` against the page URL. -/
def processHref (href : String) (base_url : String) (base_domain : String) :
    Option String :=
  if trimC href.data = [] then none
  else
    let absolute0 := urljoinC base_url.data href.data
    let absolute1 := absolute0.takeWhile (fun c => c ≠ '#')
    let parsed := urlparseC absolute1
    if parsed.scheme = [] then
      let rebuilt := ("https://").data ++
        (if parsed.netloc ≠ [] then parsed.netloc else base_domain.data) ++
        parsed.path ++ (if parsed.query ≠ [] then '?' :: parsed.query else [])
      if ':' ∉ rebuilt then none
      else if is_valid_url (String.mk rebuilt) base_url then some (String.mk rebuilt)
      else none
    else if lowerC parsed.scheme ≠ ("https").data then none
    else if ':' ∉ absolute1 then none
    else if is_valid_url (String.mk absolute1) base_url then some (String.mk absolute1)
    else none

/-- `_extract_internal_links`: all `<a href>` targets that survive
`processHref`.  The source accumulates them in a Python `set`; the model
keeps first-insertion order (the verified properties do not depend on the
enumeration order of the set). -/
def extract_internal_links (doc : List Node) (base_url base_domain : String) :
    List String :=
  dedupFirstSeen []
    ((doc.filter (fun n => n.tag == "a" && (attrGet n "href").isSome)).filterMap
      (fun a => processHref (attrGetD a "href" "") base_url base_domain))

/-- The final state of the crawl loop: the distinct visited URLs, the URLs
of the appended page records (`crawled_content`), the trace of URLs passed
to `client.get` (instrumentation for the no-refetch property; under
successful fetches it coincides with the visit order), and the frontier at
exit. -/
structure CrawlRes where
  visited : List String
  pages : List String
  fetched : List String
  queue : List (String × Nat)
deriving Repr, DecidableEq

/-- The `while queue and len(visited) < max_pages` loop of `crawl`.  `site`
models `client.get` + HTML parsing: `none` is any fetch/parse exception
(logged and skipped).  Termination: each iteration either grows `visited`
(bounded by `max_pages`) or shortens the queue. -/
def crawlLoop (site : String → Option (List Node)) (maxPages maxDepth : Nat)
    (baseDomain : String) (queue : List (String × Nat))
    (visited pages fetched : List String) : CrawlRes :=
  if h : visited.length < maxPages then
    match queue with
    | [] => ⟨visited, pages, fetched, []⟩
    | (url, depth) :: rest =>
      if url ∈ visited ∨ maxDepth < depth then
        crawlLoop site maxPages maxDepth baseDomain rest visited pages fetched
      else
        match site url with
        | none =>
          crawlLoop site maxPages maxDepth baseDomain rest visited pages
            (fetched ++ [url])
        | some doc =>
          let visited2 := visited ++ [url]
          let pages2 := pages ++ [url]
          let links := if depth < maxDepth then
              (extract_internal_links doc url baseDomain).filter
                (fun l => l ∉ visited2)
            else []
          crawlLoop site maxPages maxDepth baseDomain
            (rest ++ links.map (fun l => (l, depth + 1)))
            visited2 pages2 (fetched ++ [url])
  else ⟨visited, pages, fetched, queue⟩
termination_by (maxPages - visited.length, queue.length)
decreasing_by
  · apply Prod.Lex.right
    simp only [List.length_cons]
    omega
  · apply Prod.Lex.right
    simp only [List.length_cons]
    omega
  · apply Prod.Lex.left
    simp only [List.length_append, List.length_cons]
    omega

/-- The seed normalization at the top of `crawl`: an absent scheme turns
into `https://` + (netloc or path); any other scheme gets its first literal
`http://` replaced by `https://` unless it is already (case-insensitively)
`https`. -/
def replaceFirstC (cs pat rep : List Char) : List Char :=
  match cs with
  | [] => []
  | c :: rest =>
    if startsWithC (c :: rest) pat then rep ++ (c :: rest).drop pat.length
    else c :: replaceFirstC rest pat rep

def adjustedStart (startUrl : String) : String :=
  let p := urlparseC startUrl.data
  if p.scheme = [] then
    String.mk (("https://").data ++ (if p.netloc ≠ [] then p.netloc else p.path))
  else if lowerC p.scheme ≠ ("https").data then
    String.mk (replaceFirstC startUrl.data (("http://").data) (("https://").data))
  else startUrl

def crawlBaseDomain (startUrl : String) : String :=
  String.mk (urlparseC (adjustedStart startUrl).data).netloc

/-- `AdMasterContentCrawlerService.crawl`: normalize the seed, reject a
colon-free seed (`ValueError`), then run the loop from `(seed, 0)` with
fresh state. -/
def crawl (site : String → Option (List Node)) (maxPages maxDepth : Nat)
    (startUrl : String) : Except String CrawlRes :=
  let start2 := adjustedStart startUrl
  if ':' ∉ start2.data then
    Except.error ("Invalid URL format: " ++ start2 ++ " (must contain ':' for protocol)")
  else
    Except.ok (crawlLoop site maxPages maxDepth (crawlBaseDomain startUrl)
      [(start2, 0)] [] [] [])

/-- The link function the crawl explores: the admitted internal links of a
fetched page, empty on fetch failure. -/
def siteAdj (site : String → Option (List Node)) (baseDomain : String)
    (u : String) : List String :=
  match site u with
  | none => []
  | some doc => extract_internal_links doc u baseDomain

/-- Reachability in exactly `d` steps along a link function. -/
inductive ReachN (adj : String → List String) (start : String) :
    String → Nat → Prop where
  | refl : ReachN adj start start 0
  | step : ∀ {u v : String} {d : Nat},
      ReachN adj start u d → v ∈ adj u → ReachN adj start v (d + 1)

/-- Reachability within the depth cap: the crawler's notion of a site's
page set. -/
def ReachWithin (adj : String → List String) (start : String) (maxDepth : Nat)
    (u : String) : Prop :=
  ∃ d, d ≤ maxDepth ∧ ReachN adj start u d

/-- A path from `u` through the nodes `ns` (in order) ending at `ns`'s last
element (or `u` itself when `ns` is empty). -/
inductive IsPath (adj : String → List String) : String → List String → String → Prop where
  | nil : ∀ {u}, IsPath adj u [] u
  | cons : ∀ {u v w : String} {ns : List String},
      v ∈ adj u → IsPath adj v ns w → IsPath adj u (v :: ns) w

/-- The invariant-derived description of a finished crawl-loop state: the
visited list is duplicate-free and inside the reachable set, the page
records and the fetch trace coincide with it, it never exceeds the page
cap, the loop stopped because the frontier was exhausted or the cap was
reached, and an exhausted frontier means every reachable page was visited. -/
def CrawlLoopGood (R : List String) (maxPages : Nat) (res : CrawlRes) : Prop :=
  res.visited.Nodup ∧ (∀ u ∈ res.visited, u ∈ R) ∧ res.pages = res.visited ∧
    res.fetched = res.visited ∧ res.visited.length ≤ maxPages ∧
    (res.queue = [] ∨ res.visited.length = maxPages) ∧
    (res.queue = [] → ∀ u ∈ R, u ∈ res.visited)

/-! ## Concrete demonstration inputs

Small concrete environments/databases/AI responses used by the witness and
counterexample theorems below. -/

def envDemo : Env :=
  ⟨true, some "api-key", none, some "gemini-2.0-flash", none, none, none⟩

def dbDemo : DB :=
  ⟨[⟨"b1", "Acme", some "retail", some "https://acme.example"⟩], [],
    [⟨1, "Google Ads", true⟩, ⟨2, "Facebook Ads", true⟩], []⟩

def aiDemo : AIResult :=
  ⟨1, "Google Ads",
    [⟨1, "Google Ads", 90, [], ""⟩, ⟨2, "Facebook Ads", 80, [], ""⟩],
    "search intent dominates"⟩

def cdDemo : CampaignCreate :=
  ⟨"b1", "Launch", "https://acme.example/", none, none, "en", ["area1"],
    some "website-traffic"⟩

/-- AI response for the C2 counterexample: the ranked list cites platform
99, which is absent from `dbC2`'s catalog, while the recommended id 1 is
present. -/
def aiC2 : AIResult :=
  ⟨1, "Google Ads",
    [⟨1, "Google Ads", 90, [], ""⟩, ⟨99, "Phantom Ads", 85, [], ""⟩],
    "r"⟩

def dbC2 : DB :=
  ⟨[⟨"b1", "Acme", some "retail", none⟩], [], [⟨1, "Google Ads", true⟩], []⟩

/-- AI response whose RECOMMENDED id (99) is absent from the catalog. -/
def aiC2bad : AIResult :=
  ⟨99, "Phantom Ads", [⟨99, "Phantom Ads", 90, [], ""⟩], "r"⟩

/-! ## Theorems -/

/-! ### Character-class and trimming lemmas -/

theorem mem_of_isHexC {c : Char} (h : isHexC c = true) : c ∈ hexDigitChars :=
  List.elem_iff.mp h

theorem lowerChar_isHexC {c : Char} (h : isHexC c = true) :
    lowerChar c ∈ lowerHexChars := by
  have hm := mem_of_isHexC h
  fin_cases hm <;> decide

theorem not_ws_of_isHexC {c : Char} (h : isHexC c = true) : isWsC c = false := by
  have hm := mem_of_isHexC h
  fin_cases hm <;> decide

theorem ne_hash_of_mem_lowerHex {c : Char} (h : c ∈ lowerHexChars) : c ≠ '#' := by
  fin_cases h <;> decide

theorem dropWhile_eq_self_of_all {p : Char → Bool} {cs : List Char}
    (h : ∀ c ∈ cs, p c = false) : cs.dropWhile p = cs := by
  cases cs with
  | nil => rfl
  | cons c rest => simp [List.dropWhile_cons, h c (List.mem_cons_self c rest)]

theorem trimC_eq_self {cs : List Char} (h : ∀ c ∈ cs, isWsC c = false) :
    trimC cs = cs := by
  unfold trimC
  rw [dropWhile_eq_self_of_all h, dropWhile_eq_self_of_all, List.reverse_reverse]
  intro c hc
  exact h c (List.mem_reverse.mp hc)

/-! ### Scanner capture-shape lemmas -/

theorem takeHex_all_hex : ∀ (n : Nat) (cs : List Char), ∀ c ∈ (takeHex n cs).1,
    isHexC c = true := by
  intro n
  induction n with
  | zero => intro cs c hc; simp [takeHex] at hc
  | succ m ih =>
    intro cs c hc
    cases cs with
    | nil => simp [takeHex] at hc
    | cons d rest =>
      by_cases hd : isHexC d
      · simp only [takeHex, hd, if_true] at hc
        rcases List.mem_cons.mp hc with rfl | hc2
        · exact hd
        · exact ih rest c hc2
      · simp [takeHex, hd] at hc

theorem takeHex_length : ∀ (n : Nat) (cs : List Char), (takeHex n cs).1.length ≤ n := by
  intro n
  induction n with
  | zero => intro cs; simp [takeHex]
  | succ m ih =>
    intro cs
    cases cs with
    | nil => simp [takeHex]
    | cons d rest =>
      by_cases hd : isHexC d
      · simp only [takeHex, hd, if_true, List.length_cons]
        exact Nat.succ_le_succ (ih rest)
      · simp [takeHex, hd]

theorem matchHashHex_sound {cs cap rest : List Char}
    (h : matchHashHex cs = some (cap, rest)) : GoodCap cap := by
  cases cs with
  | nil => simp [matchHashHex] at h
  | cons c rest0 =>
    by_cases hc : c = '#'
    · simp only [matchHashHex, hc, if_true] at h
      by_cases hl : 3 ≤ (takeHex 8 rest0).1.length
      · simp only [hl, if_true, Option.some_inj, Prod.mk.injEq] at h
        refine ⟨(takeHex 8 rest0).1, h.1.symm, hl, takeHex_length 8 rest0,
          takeHex_all_hex 8 rest0⟩
      · simp [hl] at h
    · simp [matchHashHex, hc] at h

theorem matchWsHashHex_sound {cs cap rest : List Char}
    (h : matchWsHashHex cs = some (cap, rest)) : GoodCap cap :=
  matchHashHex_sound h

theorem matchColonWsHashHex_sound {cs cap rest : List Char}
    (h : matchColonWsHashHex cs = some (cap, rest)) : GoodCap cap := by
  unfold matchColonWsHashHex at h
  split at h
  · simp at h
  · split at h
    · exact matchWsHashHex_sound h
    · simp at h

theorem tryVarAt_sound {kw cs cap rest : List Char}
    (h : tryVarAt kw cs = some (cap, rest)) : GoodCap cap := by
  unfold tryVarAt at h
  split at h
  · dsimp only at h
    split at h
    · split at h
      · simp at h
      · split at h
        · exact matchWsHashHex_sound h
        · simp at h
    · simp at h
  · simp at h

theorem tryInlineAt_sound {cs cap rest : List Char}
    (h : tryInlineAt cs = some (cap, rest)) : GoodCap cap := by
  unfold tryInlineAt at h
  split at h
  · exact matchColonWsHashHex_sound h
  · split at h
    · exact matchColonWsHashHex_sound h
    · split at h
      · exact matchColonWsHashHex_sound h
      · simp at h

theorem tryCssAt_sound {cs cap rest : List Char}
    (h : tryCssAt cs = some (cap, rest)) : GoodCap cap := by
  unfold tryCssAt at h
  split at h
  · exact matchColonWsHashHex_sound h
  · split at h
    · exact matchColonWsHashHex_sound h
    · split at h
      · exact matchColonWsHashHex_sound h
      · simp at h

theorem scanAux_sound {tryAt : List Char → Option (List Char × List Char)}
    (hty : ∀ cs cap rest, tryAt cs = some (cap, rest) → GoodCap cap) :
    ∀ (fuel : Nat) (cs : List Char), ∀ cap ∈ scanAux tryAt fuel cs, GoodCap cap := by
  intro fuel
  induction fuel with
  | zero => intro cs cap hm; simp [scanAux] at hm
  | succ n ih =>
    intro cs cap hm
    cases cs with
    | nil => simp [scanAux] at hm
    | cons c rest =>
      simp only [scanAux] at hm
      cases htry : tryAt (c :: rest) with
      | none => rw [htry] at hm; exact ih rest cap hm
      | some pr =>
        rw [htry] at hm
        rcases List.mem_cons.mp hm with rfl | hm2
        · exact hty _ _ _ htry
        · exact ih pr.2 cap hm2

theorem scanAll_sound {tryAt : List Char → Option (List Char × List Char)}
    (hty : ∀ cs cap rest, tryAt cs = some (cap, rest) → GoodCap cap)
    {cs cap : List Char} (hm : cap ∈ scanAll tryAt cs) : GoodCap cap :=
  scanAux_sound hty cs.length cs cap hm

/-! ### Normalization lemmas -/

theorem startsWithC_hash_iff {v : List Char} :
    startsWithC v (("#").data) = true ↔ ∃ r, v = '#' :: r := by
  have hd : ("#").data = ['#'] := rfl
  rw [hd]
  cases v with
  | nil => simp [startsWithC, List.isPrefixOf]
  | cons c r =>
    simp only [startsWithC, List.isPrefixOf, List.isPrefixOf_nil_left,
      Bool.and_true, beq_iff_eq]
    constructor
    · intro h; exact ⟨r, by rw [h]⟩
    · rintro ⟨r2, hr⟩
      injection hr with h1 h2
      exact h1.symm

theorem matchesShortHex_core (body : List Char) (h3 : 3 ≤ body.length)
    (hhex : ∀ c ∈ body, isHexC c = true) :
    matchesShortHex (('#' :: lowerC body).take 7) = true := by
  rw [List.take_succ_cons]
  simp only [matchesShortHex, List.length_take, List.all_eq_true, beq_self_eq_true,
    Bool.true_and, Bool.and_eq_true, decide_eq_true_eq]
  refine ⟨⟨?_, ?_⟩, ?_⟩
  · have : (lowerC body).length = body.length := List.length_map body lowerChar
    omega
  · have : (lowerC body).length = body.length := List.length_map body lowerChar
    omega
  · intro d hd
    have hd2 : d ∈ lowerC body := List.take_subset 6 (lowerC body) hd
    obtain ⟨b, hb, rfl⟩ := List.mem_map.mp hd2
    exact List.elem_iff.mpr (lowerChar_isHexC (hhex b hb))

theorem normalize_hex_goodCap {cap : List Char} (h : GoodCap cap) :
    matchesShortHex (normalize_hex cap) = true := by
  obtain ⟨body, rfl, h3, _h8, hhex⟩ := h
  unfold normalize_hex
  dsimp only
  have hnws : ∀ c ∈ ('#' :: body), isWsC c = false := by
    intro c hc
    rcases List.mem_cons.mp hc with rfl | hc2
    · decide
    · exact not_ws_of_isHexC (hhex c hc2)
  rw [trimC_eq_self hnws]
  have hlow : lowerC ('#' :: body) = '#' :: lowerC body := rfl
  rw [hlow, if_pos (startsWithC_hash_iff.mpr ⟨lowerC body, rfl⟩)]
  exact matchesShortHex_core body h3 hhex

theorem normalize_hex_isHex {v : List Char} (h : is_hex_color v = true) :
    matchesShortHex (normalize_hex v) = true := by
  unfold is_hex_color at h
  dsimp only at h
  unfold normalize_hex
  dsimp only
  by_cases hs : startsWithC (trimC v) (("#").data) = true
  · obtain ⟨r, hr⟩ := startsWithC_hash_iff.mp hs
    rw [if_pos hs, hr] at h
    rw [hr]
    simp only [List.drop_succ_cons, List.drop_zero, Bool.and_eq_true,
      decide_eq_true_eq, List.all_eq_true] at h
    obtain ⟨⟨h3, _h8⟩, hhex⟩ := h
    have hlow : lowerC ('#' :: r) = '#' :: lowerC r := rfl
    rw [hlow, if_pos (startsWithC_hash_iff.mpr ⟨lowerC r, rfl⟩)]
    exact matchesShortHex_core r h3 hhex
  · rw [if_neg hs] at h
    simp only [Bool.and_eq_true, decide_eq_true_eq, List.all_eq_true] at h
    obtain ⟨⟨h3, _h8⟩, hhex⟩ := h
    cases ht : trimC v with
    | nil => rw [ht] at h3; simp at h3
    | cons c rest =>
      rw [ht] at h3 hhex
      have hc : isHexC c = true := hhex c (List.mem_cons_self c rest)
      have hlowne : lowerChar c ≠ '#' :=
        ne_hash_of_mem_lowerHex (lowerChar_isHexC hc)
      have hlow : lowerC (c :: rest) = lowerChar c :: lowerC rest := rfl
      rw [hlow, if_neg ?hneg]
      case hneg =>
        intro hcon
        obtain ⟨r2, hr2⟩ := startsWithC_hash_iff.mp hcon
        injection hr2 with ha _
        exact hlowne ha
      have hcore := matchesShortHex_core (c :: rest) h3 hhex
      rw [hlow] at hcore
      exact hcore

/-! ### Candidate soundness -/

theorem collectColorCandidates_sound {doc : List Node} :
    ∀ x ∈ collectColorCandidates doc, matchesShortHex x = true := by
  intro x hx
  simp only [collectColorCandidates, List.mem_append] at hx
  rcases hx with (((hx | hx) | hx) | hx) | hx
  · obtain ⟨n, _, hf⟩ := List.mem_filterMap.mp hx
    dsimp only at hf
    split at hf
    · injection hf with hf2
      exact hf2 ▸ normalize_hex_isHex (by assumption)
    · simp at hf
  · obtain ⟨st, _, hin⟩ := List.mem_flatMap.mp hx
    obtain ⟨kw, _, hin2⟩ := List.mem_flatMap.mp hin
    obtain ⟨cap, hcap, rfl⟩ := List.mem_map.mp hin2
    exact normalize_hex_goodCap (scanAll_sound (fun _ _ _ => tryVarAt_sound) hcap)
  · obtain ⟨el, _, hin⟩ := List.mem_flatMap.mp hx
    obtain ⟨cap, hcap, rfl⟩ := List.mem_map.mp hin
    exact normalize_hex_goodCap (scanAll_sound (fun _ _ _ => tryInlineAt_sound) hcap)
  · obtain ⟨st, _, hin⟩ := List.mem_flatMap.mp hx
    obtain ⟨cap, hcap, hf⟩ := List.mem_filterMap.mp hin
    dsimp only at hf
    split at hf
    · simp at hf
    · injection hf with hf2
      exact hf2 ▸ normalize_hex_goodCap (scanAll_sound (fun _ _ _ => tryCssAt_sound) hcap)
  · obtain ⟨m, _, hf⟩ := List.mem_filterMap.mp hx
    dsimp only at hf
    split at hf
    · split at hf
      · injection hf with hf2
        exact hf2 ▸ normalize_hex_isHex (by assumption)
      · simp at hf
    · simp at hf

/-! ### First-seen dedup lemmas -/

theorem firstIdx_cons_self {α : Type} [DecidableEq α] (x : α) (l : List α) :
    firstIdx (x :: l) x = 0 := by
  simp [firstIdx]

theorem firstIdx_cons_ne {α : Type} [DecidableEq α] {x a : α} (l : List α)
    (h : x ≠ a) : firstIdx (x :: l) a = firstIdx l a + 1 := by
  simp [firstIdx, h]

theorem dedupFirstSeen_mem {α : Type} [DecidableEq α] {seen l : List α} {x : α}
    (h : x ∈ dedupFirstSeen seen l) : x ∈ l ∧ x ∉ seen := by
  induction l generalizing seen with
  | nil => simp [dedupFirstSeen] at h
  | cons c rest ih =>
    by_cases hc : c ∈ seen
    · rw [dedupFirstSeen, if_pos hc] at h
      obtain ⟨h1, h2⟩ := ih h
      exact ⟨List.mem_cons_of_mem c h1, h2⟩
    · rw [dedupFirstSeen, if_neg hc] at h
      rcases List.mem_cons.mp h with rfl | h2
      · exact ⟨List.mem_cons_self x rest, hc⟩
      · obtain ⟨h3, h4⟩ := ih h2
        refine ⟨List.mem_cons_of_mem c h3, fun hmem => h4 (List.mem_cons_of_mem c hmem)⟩

theorem dedupFirstSeen_sublist {α : Type} [DecidableEq α] (seen l : List α) :
    (dedupFirstSeen seen l).Sublist l := by
  induction l generalizing seen with
  | nil => simp [dedupFirstSeen]
  | cons c rest ih =>
    by_cases hc : c ∈ seen
    · rw [dedupFirstSeen, if_pos hc]
      exact (ih seen).trans (List.sublist_cons_self c rest)
    · rw [dedupFirstSeen, if_neg hc]
      exact (ih (c :: seen)).cons₂ c

theorem dedupFirstSeen_pairwise {α : Type} [DecidableEq α] (seen l : List α) :
    (dedupFirstSeen seen l).Pairwise (fun a b => firstIdx l a < firstIdx l b) := by
  induction l generalizing seen with
  | nil => simp [dedupFirstSeen]
  | cons c rest ih =>
    by_cases hc : c ∈ seen
    · rw [dedupFirstSeen, if_pos hc]
      refine (ih seen).imp_of_mem ?_
      intro a b ha hb hr
      have hna := dedupFirstSeen_mem ha
      have hnb := dedupFirstSeen_mem hb
      have hax : c ≠ a := fun he => hna.2 (he ▸ hc)
      have hbx : c ≠ b := fun he => hnb.2 (he ▸ hc)
      rw [firstIdx_cons_ne rest hax, firstIdx_cons_ne rest hbx]
      omega
    · rw [dedupFirstSeen, if_neg hc, List.pairwise_cons]
      constructor
      · intro b hb
        have hnb := dedupFirstSeen_mem hb
        have hbx : c ≠ b := fun he => hnb.2 (he ▸ List.mem_cons_self c seen)
        rw [firstIdx_cons_self, firstIdx_cons_ne rest hbx]
        omega
      · refine (ih (c :: seen)).imp_of_mem ?_
        intro a b ha hb hr
        have hna := dedupFirstSeen_mem ha
        have hnb := dedupFirstSeen_mem hb
        have hax : c ≠ a := fun he => hna.2 (he ▸ List.mem_cons_self c seen)
        have hbx : c ≠ b := fun he => hnb.2 (he ▸ List.mem_cons_self c seen)
        rw [firstIdx_cons_ne rest hax, firstIdx_cons_ne rest hbx]
        omega

theorem dedupFirstSeen_nodup {α : Type} [DecidableEq α] (seen l : List α) :
    (dedupFirstSeen seen l).Nodup := by
  have hp := dedupFirstSeen_pairwise seen l
  refine hp.imp ?_
  intro a b hr
  intro he
  rw [he] at hr
  omega

/-! ### C3: brand-color list format -/

/-- C3 (amended): every color returned by `_extract_theme_colors` matches
`#[0-9a-f]{3,6}` (lowercase, `#`-prefixed, alpha digits beyond the sixth
truncated — but 3-to-5-digit shorthand candidates are NOT expanded to 6
digits, so the spec's `#[0-9a-f]{6}` does not always hold); the list has no
duplicates, has length at most 4, is a sublist of the candidate stream, and
lists colors in strictly increasing order of first occurrence among the
candidates. -/
theorem c3_brand_colors_amended (doc : List Node) :
    (∀ c ∈ extract_theme_colors doc, matchesShortHex c = true) ∧
    (extract_theme_colors doc).Nodup ∧
    (extract_theme_colors doc).length ≤ 4 ∧
    (extract_theme_colors doc).Sublist (collectColorCandidates doc) ∧
    (extract_theme_colors doc).Pairwise
      (fun a b => firstIdx (collectColorCandidates doc) a <
        firstIdx (collectColorCandidates doc) b) := by
  unfold extract_theme_colors
  refine ⟨?_, ?_, ?_, ?_, ?_⟩
  · intro c hc
    have h1 : c ∈ dedupFirstSeen [] (collectColorCandidates doc) :=
      List.take_subset _ _ hc
    exact collectColorCandidates_sound c (dedupFirstSeen_mem h1).1
  · exact (dedupFirstSeen_nodup [] _).sublist (List.take_sublist _ _)
  · exact List.length_take_le _ _
  · exact (List.take_sublist _ _).trans (dedupFirstSeen_sublist [] _)
  · exact (dedupFirstSeen_pairwise [] _).sublist (List.take_sublist _ _)

/-- C3 (counterexample): on a document whose `theme-color` meta holds the
3-digit shorthand `#abc`, the extractor returns `#abc` unchanged — a
4-character string that does not match the spec's `#[0-9a-f]{6}`. -/
theorem c3_brand_colors_counterexample :
    extract_theme_colors
        [⟨"meta", [("name", "theme-color"), ("content", "#abc")], []⟩] =
      [(("#abc").data)] ∧
    matchesSixHex (("#abc").data) = false := by
  constructor
  · rfl
  · rfl

/-! ### C7: description extraction -/

theorem maxByLen_mem (a : String) (l : List String) : maxByLen a l ∈ a :: l := by
  induction l generalizing a with
  | nil => simp [maxByLen]
  | cons x rest ih =>
    rw [maxByLen]
    by_cases h : a.length < x.length
    · rw [if_pos h]
      exact List.mem_cons_of_mem a (ih x)
    · rw [if_neg h]
      rcases List.mem_cons.mp (ih a) with he | hm
      · rw [he]; exact List.mem_cons_self a (x :: rest)
      · exact List.mem_cons_of_mem a (List.mem_cons_of_mem x hm)

theorem maxByLen_ge (a : String) (l : List String) :
    ∀ q ∈ a :: l, q.length ≤ (maxByLen a l).length := by
  induction l generalizing a with
  | nil =>
    intro q hq
    rcases List.mem_cons.mp hq with rfl | hq2
    · simp [maxByLen]
    · simp at hq2
  | cons x rest ih =>
    intro q hq
    rw [maxByLen]
    by_cases h : a.length < x.length
    · rw [if_pos h]
      rcases List.mem_cons.mp hq with he | hq2
      · rw [he]
        exact le_trans (Nat.le_of_lt h) (ih x x (List.mem_cons_self x rest))
      · exact ih x q hq2
    · rw [if_neg h]
      rcases List.mem_cons.mp hq with he | hq2
      · rw [he]
        exact ih a a (List.mem_cons_self a rest)
      · rcases List.mem_cons.mp hq2 with he2 | hq3
        · rw [he2]
          exact le_trans (Nat.le_of_not_lt h) (ih a a (List.mem_cons_self a rest))
        · exact ih a q (List.mem_cons_of_mem a hq3)

theorem extract_description_fallback {doc : List Node}
    (h : metaDescriptionUnusable doc) :
    extract_description doc =
      (match longParagraphs doc with
       | [] => ""
       | p :: rest => maxByLen p rest) := by
  unfold extract_description
  unfold metaDescriptionUnusable at h
  cases htag : descriptionMetaTag doc with
  | none => rfl
  | some t =>
    rw [htag] at h
    dsimp only at h ⊢
    cases hc : attrGet t "content" with
    | none => rfl
    | some c =>
      rw [hc] at h
      dsimp only at h
      dsimp only
      have hne : ¬ c ≠ "" := fun hcon => hcon h
      rw [if_neg hne]

/-- C7 (amended): the extracted description is the stripped `content` of the
description meta tag — where that tag is the FIRST `meta name="description"`
tag when one exists (even with empty or missing content, in which case the
og tag is never consulted), and otherwise the first
`meta property="og:description"` tag — provided the chosen tag's content is
present and non-empty; otherwise it is the longest paragraph among those
with at least 6 words (the first such on ties), and the empty string when
there is none. -/
theorem c7_description_amended (doc : List Node) :
    (∀ t c, descriptionMetaTag doc = some t → attrGet t "content" = some c →
      c ≠ "" → extract_description doc = String.mk (trimC c.data)) ∧
    (metaDescriptionUnusable doc → longParagraphs doc = [] →
      extract_description doc = "") ∧
    (metaDescriptionUnusable doc → longParagraphs doc ≠ [] →
      extract_description doc ∈ longParagraphs doc ∧
      ∀ q ∈ longParagraphs doc, q.length ≤ (extract_description doc).length) := by
  refine ⟨?_, ?_, ?_⟩
  · intro t c h1 h2 h3
    unfold extract_description
    rw [h1]
    dsimp only
    rw [h2]
    dsimp only
    rw [if_pos h3]
  · intro hu hlp
    rw [extract_description_fallback hu, hlp]
  · intro hu hlp
    cases hl : longParagraphs doc with
    | nil => exact absurd hl hlp
    | cons p rest =>
      rw [extract_description_fallback hu, hl]
      constructor
      · exact maxByLen_mem p rest
      · exact maxByLen_ge p rest

/-- C7 (witness): a document with `meta name="description"
content="  Hello world  "` yields the stripped content. -/
theorem c7_description_amended_witness :
    extract_description
        [⟨"meta", [("name", "description"), ("content", "  Hello world  ")], []⟩] =
      "Hello world" :=
  ((c7_description_amended
      [⟨"meta", [("name", "description"), ("content", "  Hello world  ")], []⟩]).1
    ⟨"meta", [("name", "description"), ("content", "  Hello world  ")], []⟩
    "  Hello world  " rfl rfl (by decide)).trans rfl

/-- C7 (counterexample): a document holding a `meta name="description"` tag
with EMPTY content followed by a `meta property="og:description"` tag with
non-empty content "X" — a tag "with non-empty content" exists, yet the
extractor returns the paragraph fallback ("" here), not "X": the
name-description tag shadows the og tag even when unusable. -/
theorem c7_description_counterexample :
    findMetaOgDescription
        [⟨"meta", [("name", "description"), ("content", "")], []⟩,
         ⟨"meta", [("property", "og:description"), ("content", "X")], []⟩] =
      some ⟨"meta", [("property", "og:description"), ("content", "X")], []⟩ ∧
    extract_description
        [⟨"meta", [("name", "description"), ("content", "")], []⟩,
         ⟨"meta", [("property", "og:description"), ("content", "X")], []⟩] = "" ∧
    ("" : String) ≠ "X" := by
  refine ⟨rfl, rfl, by decide⟩

/-! ### C8: language extraction -/

theorem detect_language_fallback {doc : List Node}
    (detect : String → Option String) (text : String)
    (h : htmlLangUnusable doc) :
    detect_language detect text doc =
      (if text ≠ "" && decide (10 ≤ wordCount text) then
        match detect text with
        | some r => r
        | none => "en"
      else "en") := by
  unfold detect_language
  unfold htmlLangUnusable at h
  cases hh : doc.find? (fun n => n.tag == "html") with
  | none => rfl
  | some ht =>
    rw [hh] at h
    dsimp only at h ⊢
    cases hl : attrGet ht "lang" with
    | none => rfl
    | some l =>
      rw [hl] at h
      dsimp only at h
      dsimp only
      have hne : ¬ l ≠ "" := fun hcon => hcon h
      rw [if_neg hne]

/-- C8 (amended): language extraction returns the part of the `<html>`
element's `lang` attribute before the first hyphen, lowercased (the
lowercase primary subtag for well-formed tags), whenever that attribute is
present with a NON-EMPTY value (an empty `lang=""` falls through to
detection); otherwise, when the description has at least 10 words it returns
the detected language, and in every remaining case (short/empty text or a
detection failure) it returns "en". -/
theorem c8_language_amended (detect : String → Option String) (text : String)
    (doc : List Node) :
    (∀ h l, doc.find? (fun n => n.tag == "html") = some h →
      attrGet h "lang" = some l → l ≠ "" →
      detect_language detect text doc =
        String.mk (lowerC (l.data.takeWhile (fun c => c ≠ '-')))) ∧
    (htmlLangUnusable doc → text ≠ "" → 10 ≤ wordCount text →
      ∀ r, detect text = some r → detect_language detect text doc = r) ∧
    (htmlLangUnusable doc →
      (text = "" ∨ wordCount text < 10 ∨ detect text = none) →
      detect_language detect text doc = "en") := by
  refine ⟨?_, ?_, ?_⟩
  · intro h l h1 h2 h3
    unfold detect_language
    rw [h1]
    dsimp only
    rw [h2]
    dsimp only
    rw [if_pos h3]
  · intro hu ht hw r hr
    rw [detect_language_fallback detect text hu]
    rw [if_pos (by simp [ht, hw]), hr]
  · intro hu hcase
    rw [detect_language_fallback detect text hu]
    rcases hcase with hc | hc | hc
    · rw [if_neg (by simp [hc])]
    · rw [if_neg (by simp; omega)]
    · by_cases hcond : (text ≠ "" && decide (10 ≤ wordCount text)) = true
      · rw [if_pos hcond, hc]
      · rw [if_neg (by simpa using hcond)]

/-- C8 (witness): `<html lang="fr-CA">` yields "fr" regardless of the text
or the detector. -/
theorem c8_language_amended_witness :
    detect_language (fun _ => none) "" [⟨"html", [("lang", "fr-CA")], []⟩] = "fr" :=
  ((c8_language_amended (fun _ => none) "" [⟨"html", [("lang", "fr-CA")], []⟩]).1
    ⟨"html", [("lang", "fr-CA")], []⟩ "fr-CA" rfl rfl (by decide)).trans rfl

/-- C8 (counterexample): with `<html lang="">` the `lang` attribute is
present, but the extractor ignores it and returns the detector's result
("de" here) for a 10-word description — not the (empty) lowercase primary
subtag of the attribute value. -/
theorem c8_language_counterexample :
    ([⟨"html", [("lang", "")], []⟩] : List Node).find? (fun n => n.tag == "html") =
      some ⟨"html", [("lang", "")], []⟩ ∧
    attrGet ⟨"html", [("lang", "")], []⟩ "lang" = some "" ∧
    detect_language (fun _ => some "de")
      "one two three four five six seven eight nine ten"
      [⟨"html", [("lang", "")], []⟩] = "de" ∧
    ("de" : String) ≠ String.mk (lowerC ((("") : String).data.takeWhile (fun c => c ≠ '-'))) := by
  refine ⟨rfl, rfl, rfl, by decide⟩

/-! ### C9: campaign lookup access control -/

/-- C9: `get_campaign_by_id` returns a campaign exactly when the requested
id is a well-formed object id, a campaign with that id exists, and that
campaign belongs to the requesting user; in every other case (malformed id,
missing campaign, foreign campaign) it returns `none` — so a foreign
campaign is indistinguishable from a nonexistent one. -/
theorem c9_get_campaign_by_id_owner_only (campaigns : List StoredCampaign)
    (cid uid : String) (c : StoredCampaign) :
    get_campaign_by_id campaigns cid uid = some c ↔
      (isValidObjectId cid = true ∧
        campaigns.find? (fun k => k.oid == String.mk (lowerC cid.data)) = some c ∧
        c.user_id = uid) := by
  unfold get_campaign_by_id parseObjectId
  by_cases hv : isValidObjectId cid = true
  · rw [if_pos hv]
    dsimp only
    cases hf : campaigns.find? (fun k => k.oid == String.mk (lowerC cid.data)) with
    | none => simp [hv]
    | some k =>
      dsimp only
      by_cases hu : k.user_id ≠ uid
      · rw [if_pos hu]
        simp only [hv, true_and]
        constructor
        · intro hcon; exact absurd hcon (by simp)
        · rintro ⟨hk, hcu⟩
          injection hk with hk2
          exact absurd (hk2 ▸ hcu) hu
      · rw [if_neg hu]
        simp only [hv, true_and, Option.some_inj]
        constructor
        · rintro rfl
          exact ⟨rfl, not_ne_iff.mp hu⟩
        · rintro ⟨hk, _⟩
          exact hk
  · rw [if_neg hv]
    simp [hv]

/-! ### C10: webhook signature-insensitivity -/

/-- C10: the webhook handler's outcome (user-store effect and response) is a
function of the request's JSON body alone — two requests with the same body
and different (signature) headers behave identically, since
`verify_webhook_signature` is never invoked — and any event type other than
the three user lifecycle events is acknowledged with a success response and
no store change. -/
theorem c10_webhook_ignores_signature :
    (∀ body h1 h2 users,
      clerk_webhook ⟨body, h1⟩ users = clerk_webhook ⟨body, h2⟩ users) ∧
    (∀ body hs users t, body.eventType = some t →
      t ≠ "user.created" → t ≠ "user.updated" → t ≠ "user.deleted" →
      clerk_webhook ⟨body, hs⟩ users = (users, Except.ok ⟨"success", some t⟩)) := by
  constructor
  · intro body h1 h2 users
    rfl
  · intro body hs users t het h1 h2 h3
    unfold clerk_webhook
    dsimp only
    rw [het]
    rw [if_neg (by simp [h1]), if_neg (by simp [h2]), if_neg (by simp [h3])]

/-! ### C5: the URL admission filter -/

/-- C5: `_is_valid_url` rejects every URL that lacks a `:`, carries an
explicit scheme other than `https`, has a network location different from
the base URL's, ends in a denylisted binary/media/style extension, or
contains a denylisted path fragment — in particular every non-HTTPS scheme
and every cross-domain target. -/
theorem c5_admission_filter_rejects (url base_url : String)
    (h : (':' ∉ url.data) ∨
      ((urlparseC url.data).scheme ≠ [] ∧
        lowerC (urlparseC url.data).scheme ≠ ("https").data) ∨
      ((urlparseC url.data).netloc ≠ (urlparseC base_url.data).netloc) ∨
      (∃ e ∈ skipExtensions, endsWithC (lowerC url.data) e.data = true) ∨
      (∃ sp ∈ skipPaths, containsSub (lowerC url.data) sp.data = true)) :
    is_valid_url url base_url = false := by
  unfold is_valid_url
  split
  · rfl
  · rename_i hcolon
    dsimp only
    split
    · rfl
    · rename_i hscheme
      split
      · rfl
      · rename_i hnet
        split
        · rfl
        · rename_i hsame
          split
          · rfl
          · rename_i hext
            split
            · rfl
            · rename_i hpath
              exfalso
              rcases h with h | h | h | h | h
              · exact hcolon h
              · exact hscheme h
              · exact hsame h
              · exact hext (List.any_eq_true.mpr (by
                  obtain ⟨e, he, hee⟩ := h
                  exact ⟨e, he, hee⟩))
              · exact hpath (List.any_eq_true.mpr (by
                  obtain ⟨sp, hsp, hspp⟩ := h
                  exact ⟨sp, hsp, hspp⟩))

/-- C5 (witness): an `http` URL is rejected against an `https` base. -/
theorem c5_admission_filter_rejects_witness :
    is_valid_url "http://example.com/a" "https://example.com/" = false :=
  c5_admission_filter_rejects "http://example.com/a" "https://example.com/"
    (Or.inr (Or.inl (by decide)))

/-! ### C4: breadth-first crawl — path lemmas -/

theorem nodup_subset_length_le {α : Type} [DecidableEq α] {l m : List α}
    (hl : l.Nodup) (hs : l ⊆ m) : l.length ≤ m.length := by
  rw [← List.toFinset_card_of_nodup hl]
  refine le_trans (Finset.card_le_card ?_) (List.toFinset_card_le m)
  intro x hx
  exact List.mem_toFinset.mpr (hs (List.mem_toFinset.mp hx))

theorem isPath_snoc {adj : String → List String} {v : String} :
    ∀ {a b : String} {ns : List String}, IsPath adj a ns b → v ∈ adj b →
      IsPath adj a (ns ++ [v]) v := by
  intro a b ns hp
  induction hp with
  | nil => exact fun hv => IsPath.cons hv IsPath.nil
  | cons he _ ih => exact fun hv => IsPath.cons he (ih hv)

theorem isPath_prefix {adj : String → List String} :
    ∀ {a b x : String} {ns : List String}, IsPath adj a ns b → x ∈ a :: ns →
      ∃ ns₁ ns₂, ns = ns₁ ++ ns₂ ∧ IsPath adj a ns₁ x := by
  intro a b x ns hp
  induction hp with
  | nil =>
    intro hx
    rcases List.mem_cons.mp hx with heq | hx2
    · exact ⟨[], [], rfl, heq ▸ IsPath.nil⟩
    · simp at hx2
  | cons he _ ih =>
    intro hx
    rcases List.mem_cons.mp hx with heq | hx2
    · exact ⟨[], _, rfl, heq ▸ IsPath.nil⟩
    · obtain ⟨ns₁, ns₂, heq2, hp3⟩ := ih hx2
      exact ⟨_ :: ns₁, ns₂, by simp [heq2], IsPath.cons he hp3⟩

theorem isPath_suffix {adj : String → List String} :
    ∀ {a b x : String} {ns : List String}, IsPath adj a ns b → x ∈ a :: ns →
      ∃ pre ns₂, a :: ns = pre ++ x :: ns₂ ∧ IsPath adj x ns₂ b := by
  intro a b x ns hp
  induction hp with
  | nil =>
    intro hx
    rcases List.mem_cons.mp hx with heq | hx2
    · exact ⟨[], [], by simp [heq], heq ▸ IsPath.nil⟩
    · simp at hx2
  | @cons u2 v2 w2 ns2 he hp2 ih =>
    intro hx
    rcases List.mem_cons.mp hx with heq | hx2
    · exact ⟨[], _, by simp [heq], heq ▸ IsPath.cons he hp2⟩
    · obtain ⟨pre, ns₂, heq2, hp3⟩ := ih hx2
      refine ⟨u2 :: pre, ns₂, ?_, hp3⟩
      rw [List.cons_append, ← heq2]

theorem reachN_simple_path {adj : String → List String} {start : String} :
    ∀ {u : String} {d : Nat}, ReachN adj start u d →
      ∃ ns, IsPath adj start ns u ∧ ns.length ≤ d ∧ (start :: ns).Nodup := by
  intro u d hr
  induction hr with
  | refl => exact ⟨[], IsPath.nil, by simp, by simp⟩
  | @step u2 v2 d2 _ hv ih =>
    obtain ⟨ns, hp, hlen, hnd⟩ := ih
    by_cases hvmem : v2 ∈ start :: ns
    · obtain ⟨ns₁, ns₂, heq, hp1⟩ := isPath_prefix hp hvmem
      refine ⟨ns₁, hp1, ?_, ?_⟩
      · have hl2 : ns₁.length ≤ ns.length := by
          rw [heq, List.length_append]
          omega
        omega
      · have hsub : (start :: ns₁).Sublist (start :: ns) := by
          rw [heq]
          exact List.Sublist.cons₂ start (List.sublist_append_left ns₁ ns₂)
        exact List.Nodup.sublist hsub hnd
    · refine ⟨ns ++ [v2], isPath_snoc hp hv, ?_, ?_⟩
      · rw [List.length_append]
        simp
        omega
      · rw [show start :: (ns ++ [v2]) = (start :: ns) ++ [v2] from rfl,
          List.nodup_append]
        refine ⟨hnd, List.nodup_singleton v2, ?_⟩
        intro y hy hy2
        simp only [List.mem_singleton] at hy2
        subst hy2
        exact hvmem hy

/-! ### C4: crawl-loop branch equations -/

theorem crawlLoop_eq_nil (site : String → Option (List Node))
    (maxPages maxDepth : Nat) (baseDomain : String)
    (visited pages fetched : List String) (h : visited.length < maxPages) :
    crawlLoop site maxPages maxDepth baseDomain [] visited pages fetched =
      ⟨visited, pages, fetched, []⟩ := by
  rw [crawlLoop.eq_def, dif_pos h]

theorem crawlLoop_eq_skip (site : String → Option (List Node))
    (maxPages maxDepth : Nat) (baseDomain url : String) (depth : Nat)
    (rest : List (String × Nat)) (visited pages fetched : List String)
    (h : visited.length < maxPages) (hc : url ∈ visited ∨ maxDepth < depth) :
    crawlLoop site maxPages maxDepth baseDomain ((url, depth) :: rest)
        visited pages fetched =
      crawlLoop site maxPages maxDepth baseDomain rest visited pages fetched := by
  rw [crawlLoop.eq_def, dif_pos h]
  dsimp only
  rw [if_pos hc]

theorem crawlLoop_eq_fail (site : String → Option (List Node))
    (maxPages maxDepth : Nat) (baseDomain url : String) (depth : Nat)
    (rest : List (String × Nat)) (visited pages fetched : List String)
    (h : visited.length < maxPages) (hc : ¬ (url ∈ visited ∨ maxDepth < depth))
    (hs : site url = none) :
    crawlLoop site maxPages maxDepth baseDomain ((url, depth) :: rest)
        visited pages fetched =
      crawlLoop site maxPages maxDepth baseDomain rest visited pages
        (fetched ++ [url]) := by
  rw [crawlLoop.eq_def, dif_pos h]
  dsimp only
  rw [if_neg hc, hs]

theorem crawlLoop_eq_visit (site : String → Option (List Node))
    (maxPages maxDepth : Nat) (baseDomain url : String) (depth : Nat)
    (rest : List (String × Nat)) (visited pages fetched : List String)
    (h : visited.length < maxPages) (hc : ¬ (url ∈ visited ∨ maxDepth < depth))
    (doc : List Node) (hs : site url = some doc) :
    crawlLoop site maxPages maxDepth baseDomain ((url, depth) :: rest)
        visited pages fetched =
      crawlLoop site maxPages maxDepth baseDomain
        (rest ++ ((if depth < maxDepth then
            (extract_internal_links doc url baseDomain).filter
              (fun l => l ∉ visited ++ [url])
          else []).map (fun l => (l, depth + 1))))
        (visited ++ [url]) (pages ++ [url]) (fetched ++ [url]) := by
  rw [crawlLoop.eq_def, dif_pos h]
  dsimp only
  rw [if_neg hc, hs]

theorem crawlLoop_eq_stop (site : String → Option (List Node))
    (maxPages maxDepth : Nat) (baseDomain : String)
    (queue : List (String × Nat)) (visited pages fetched : List String)
    (h : ¬ visited.length < maxPages) :
    crawlLoop site maxPages maxDepth baseDomain queue visited pages fetched =
      ⟨visited, pages, fetched, queue⟩ := by
  rw [crawlLoop.eq_def, dif_neg h]

/-! ### C4: the crawl-loop invariant proof -/

theorem pairwise_map_const_depth (l : List String) (d : Nat) :
    (l.map (fun x => (x, d))).Pairwise
      (fun a b : String × Nat => a.2 ≤ b.2) := by
  induction l with
  | nil => simp
  | cons x rest ih =>
    simp only [List.map_cons, List.pairwise_cons]
    refine ⟨?_, ih⟩
    intro b hb
    obtain ⟨y, _, rfl⟩ := List.mem_map.mp hb
    exact le_refl d

/-- The breadth-first loop, started in a state satisfying the crawl
invariants, finishes in a `CrawlLoopGood` state: visited pages are distinct
reachable pages, the loop stops exactly on frontier exhaustion or the page
cap, and frontier exhaustion means completeness. -/
theorem crawlLoop_spec (site : String → Option (List Node))
    (maxPages maxDepth : Nat) (baseDomain start : String) (R : List String)
    (hR : ∀ u, u ∈ R ↔ ReachWithin (siteAdj site baseDomain) start maxDepth u)
    (hfetch : ∀ u ∈ R, (site u).isSome = true) :
    ∀ (queue : List (String × Nat)) (visited pages fetched : List String),
      visited.Nodup →
      (∀ u ∈ visited, u ∈ R) →
      visited.length ≤ maxPages →
      pages = visited →
      fetched = visited →
      (∀ e ∈ queue, e.2 ≤ maxDepth ∧
        ∃ d, d ≤ e.2 ∧ ReachN (siteAdj site baseDomain) start e.1 d) →
      queue.Pairwise (fun a b => a.2 ≤ b.2) →
      (∀ p ∈ queue, ∀ q ∈ queue, q.2 ≤ p.2 + 1) →
      (∀ u ∈ R, u ∉ visited → ∃ v dv ns, (v, dv) ∈ queue ∧ v ∉ visited ∧
        IsPath (siteAdj site baseDomain) v ns u ∧ dv + ns.length ≤ maxDepth ∧
        (∀ y ∈ ns, y ∉ visited) ∧ (v :: ns).Nodup) →
      CrawlLoopGood R maxPages
        (crawlLoop site maxPages maxDepth baseDomain queue visited pages fetched) := by
  intro queue visited pages fetched
  induction queue, visited, pages, fetched using crawlLoop.induct site maxPages maxDepth baseDomain with
  | case1 visited pages fetched h =>
    intro hnd hsub hlen hpg hft _hq3 _hq4 _hq5 hq6
    rw [crawlLoop_eq_nil site maxPages maxDepth baseDomain visited pages fetched h]
    refine ⟨hnd, hsub, hpg, hft, hlen, Or.inl rfl, ?_⟩
    intro _ u hu
    by_contra hnv
    obtain ⟨v, dv, ns, hvq, _⟩ := hq6 u hu hnv
    simp at hvq
  | case2 visited pages fetched h url depth rest hc ih =>
    intro hnd hsub hlen hpg hft hq3 hq4 hq5 hq6
    rw [crawlLoop_eq_skip site maxPages maxDepth baseDomain url depth rest
      visited pages fetched h hc]
    have hq3front := hq3 (url, depth) (List.mem_cons_self _ _)
    have hurlv : url ∈ visited := by
      rcases hc with hcv | hcd
      · exact hcv
      · exact absurd hq3front.1 (by omega)
    refine ih hnd hsub hlen hpg hft ?_ (List.Pairwise.of_cons hq4) ?_ ?_
    · intro e he
      exact hq3 e (List.mem_cons_of_mem _ he)
    · intro p hp q hq
      exact hq5 p (List.mem_cons_of_mem _ hp) q (List.mem_cons_of_mem _ hq)
    · intro u hu hnv
      obtain ⟨v, dv, ns, hvq, hvnv, hpath, hbud, hnsv, hndp⟩ := hq6 u hu hnv
      rcases List.mem_cons.mp hvq with heq | hvq2
      · exfalso
        have hv : v = url := congrArg Prod.fst heq
        exact hvnv (hv ▸ hurlv)
      · exact ⟨v, dv, ns, hvq2, hvnv, hpath, hbud, hnsv, hndp⟩
  | case3 visited pages fetched h url depth rest hc hs ih =>
    intro _hnd _hsub _hlen _hpg _hft hq3 _hq4 _hq5 _hq6
    exfalso
    obtain ⟨hdep, d0, hd0, hreach0⟩ := hq3 (url, depth) (List.mem_cons_self _ _)
    have hurlR : url ∈ R := (hR url).mpr ⟨d0, le_trans hd0 hdep, hreach0⟩
    have hs2 := hfetch url hurlR
    rw [hs] at hs2
    simp at hs2
  | case4 visited pages fetched h url depth rest hc doc hs visited2 pages2 links ih =>
    intro hnd hsub hlen hpg hft hq3 hq4 hq5 hq6
    push_neg at hc
    obtain ⟨hurlnv, hdeple⟩ := hc
    have hdep : depth ≤ maxDepth := by omega
    obtain ⟨_, d0, hd0, hreach0⟩ := hq3 (url, depth) (List.mem_cons_self _ _)
    have hurlR : url ∈ R := (hR url).mpr ⟨d0, by omega, hreach0⟩
    have hadj : siteAdj site baseDomain url =
        extract_internal_links doc url baseDomain := by
      unfold siteAdj
      rw [hs]
    have hfront : ∀ e ∈ rest, depth ≤ e.2 := by
      intro e he
      exact (List.pairwise_cons.mp hq4).1 e he
    try dsimp only at ih
    -- names for the successor state
    have hV2nd : (visited ++ [url]).Nodup := by
      rw [List.nodup_append]
      refine ⟨hnd, List.nodup_singleton url, ?_⟩
      intro y hy hy2
      simp only [List.mem_singleton] at hy2
      subst hy2
      exact hurlnv hy
    have hV2sub : ∀ u ∈ visited ++ [url], u ∈ R := by
      intro u hu
      rcases List.mem_append.mp hu with hu1 | hu2
      · exact hsub u hu1
      · simp only [List.mem_singleton] at hu2
        subst hu2
        exact hurlR
    have hV2len : (visited ++ [url]).length ≤ maxPages := by
      rw [List.length_append]
      simp
      omega
    have hlinks : ∀ l, l ∈ (if depth < maxDepth then
        (extract_internal_links doc url baseDomain).filter
          (fun x => x ∉ visited ++ [url])
        else []) →
        l ∈ siteAdj site baseDomain url ∧ l ∉ visited ++ [url] ∧
          depth < maxDepth := by
      intro l hl
      by_cases hlt : depth < maxDepth
      · rw [if_pos hlt] at hl
        have hl2 := List.mem_filter.mp hl
        refine ⟨hadj ▸ hl2.1, ?_, hlt⟩
        simpa using hl2.2
      · rw [if_neg hlt] at hl
        simp at hl
    have hlinksmem : ∀ l, l ∈ siteAdj site baseDomain url →
        l ∉ visited ++ [url] → depth < maxDepth →
        l ∈ (if depth < maxDepth then
          (extract_internal_links doc url baseDomain).filter
            (fun x => x ∉ visited ++ [url])
          else []) := by
      intro l hl hnv hlt
      rw [if_pos hlt]
      refine List.mem_filter.mpr ⟨hadj ▸ hl, ?_⟩
      simpa using hnv
    have good := ih hV2nd hV2sub hV2len
      (by show pages ++ [url] = visited ++ [url]; rw [hpg])
      (by show fetched ++ [url] = visited ++ [url]; rw [hft]) ?_ ?_ ?_ ?_
    · rw [crawlLoop_eq_visit site maxPages maxDepth baseDomain url depth rest
        visited pages fetched h (by push_neg; exact ⟨hurlnv, hdeple⟩) doc hs]
      exact good
    -- W3 for the successor queue
    · intro e he
      rcases List.mem_append.mp he with he1 | he2
      · exact hq3 e (List.mem_cons_of_mem _ he1)
      · obtain ⟨l, hl, rfl⟩ := List.mem_map.mp he2
        obtain ⟨hladj, _, hlt⟩ := hlinks l hl
        exact ⟨by omega, d0 + 1, by omega, ReachN.step hreach0 hladj⟩
    -- W4: sortedness
    · rw [List.pairwise_append]
      refine ⟨List.Pairwise.of_cons hq4, ?_, ?_⟩
      · exact pairwise_map_const_depth _ (depth + 1)
      · intro a ha b hb
        obtain ⟨l, _, rfl⟩ := List.mem_map.mp hb
        exact hq5 (url, depth) (List.mem_cons_self _ _) a (List.mem_cons_of_mem _ ha)
    -- W5: two-level bound
    · intro p hp q hq
      rcases List.mem_append.mp hp with hp1 | hp2
      · rcases List.mem_append.mp hq with hq1 | hq2
        · exact hq5 p (List.mem_cons_of_mem _ hp1) q (List.mem_cons_of_mem _ hq1)
        · obtain ⟨l, _, rfl⟩ := List.mem_map.mp hq2
          have := hfront p hp1
          simp only
          omega
      · obtain ⟨l, _, rfl⟩ := List.mem_map.mp hp2
        rcases List.mem_append.mp hq with hq1 | hq2
        · have := hq5 (url, depth) (List.mem_cons_self _ _) q (List.mem_cons_of_mem _ hq1)
          simp only
          omega
        · obtain ⟨l2, _, rfl⟩ := List.mem_map.mp hq2
          simp only
          omega
    -- W6: completeness
    · intro u hu hnv2
      have hnv : u ∉ visited := fun hin => hnv2 (List.mem_append.mpr (Or.inl hin))
      have hneurl : u ≠ url := by
        intro heq
        exact hnv2 (List.mem_append.mpr (Or.inr (by simp [heq])))
      obtain ⟨v, dv, ns, hvq, hvnv, hpath, hbud, hnsv, hndp⟩ := hq6 u hu hnv
      have hdvge : depth ≤ dv := by
        rcases List.mem_cons.mp hvq with heq | hvq2
        · have : dv = depth := congrArg Prod.snd heq
          omega
        · exact hfront (v, dv) hvq2
      by_cases hurlpath : url ∈ v :: ns
      · -- the witness path passes through the just-visited url: re-root there
        obtain ⟨pre, ns₂, heqsplit, hp₂⟩ := isPath_suffix hpath hurlpath
        cases hp₂ with
        | nil => exact absurd rfl hneurl
        | @cons url x1 u ns₃ he1 hp₃ =>
          -- membership of suffix nodes in the original path list
          have hsufmem : ∀ y, y ∈ url :: x1 :: ns₃ → y ∈ v :: ns := by
            intro y hy
            rw [heqsplit]
            exact List.mem_append.mpr (Or.inr hy)
          have hsufnd : (url :: x1 :: ns₃).Nodup := by
            have hsl : (url :: x1 :: ns₃).Sublist (pre ++ url :: x1 :: ns₃) :=
              List.sublist_append_right pre _
            exact List.Nodup.sublist hsl (heqsplit ▸ hndp)
          have hlen2 : ns₃.length + 1 ≤ ns.length := by
            have : (v :: ns).length = (pre ++ url :: x1 :: ns₃).length :=
              congrArg List.length heqsplit
            simp only [List.length_cons, List.length_append] at this
            omega
          have hlt : depth < maxDepth := by omega
          have hx1nv : x1 ∉ visited ++ [url] := by
            intro hmem
            rcases List.mem_append.mp hmem with hm1 | hm2
            · have hx1orig : x1 ∈ v :: ns := hsufmem x1 (by simp)
              rcases List.mem_cons.mp hx1orig with he2 | he3
              · exact hvnv (he2 ▸ hm1)
              · exact hnsv x1 he3 hm1
            · simp only [List.mem_singleton] at hm2
              have : url ∉ x1 :: ns₃ := (List.nodup_cons.mp hsufnd).1
              exact this (by simp [hm2])
          have hx1adj : x1 ∈ siteAdj site baseDomain url := he1
          have hx1links := hlinksmem x1 hx1adj hx1nv hlt
          refine ⟨x1, depth + 1, ns₃, ?_, hx1nv, hp₃, by omega, ?_, ?_⟩
          · refine List.mem_append.mpr (Or.inr ?_)
            exact List.mem_map.mpr ⟨x1, hx1links, rfl⟩
          · intro y hy
            intro hmem
            rcases List.mem_append.mp hmem with hm1 | hm2
            · have hyorig : y ∈ v :: ns := hsufmem y (by simp [hy])
              rcases List.mem_cons.mp hyorig with he2 | he3
              · exact hvnv (he2 ▸ hm1)
              · exact hnsv y he3 hm1
            · simp only [List.mem_singleton] at hm2
              have hurlnotin : url ∉ x1 :: ns₃ := (List.nodup_cons.mp hsufnd).1
              exact hurlnotin (by rw [← hm2]; exact List.mem_cons_of_mem x1 hy)
          · exact (List.nodup_cons.mp hsufnd).2
      · -- the witness path avoids url: the old witness survives in `rest`
        have hvne : v ≠ url := by
          intro heq
          exact hurlpath (by simp [heq])
        have hvq2 : (v, dv) ∈ rest := by
          rcases List.mem_cons.mp hvq with heq | hvq2
          · exact absurd (congrArg Prod.fst heq) hvne
          · exact hvq2
        refine ⟨v, dv, ns, List.mem_append.mpr (Or.inl hvq2), ?_, hpath, hbud, ?_, hndp⟩
        · intro hmem
          rcases List.mem_append.mp hmem with hm1 | hm2
          · exact hvnv hm1
          · simp only [List.mem_singleton] at hm2
            exact hvne hm2
        · intro y hy hmem
          rcases List.mem_append.mp hmem with hm1 | hm2
          · exact hnsv y hy hm1
          · simp only [List.mem_singleton] at hm2
            subst hm2
            exact hurlpath (List.mem_cons_of_mem v hy)
  | case5 queue visited pages fetched h =>
    intro hnd hsub hlen hpg hft _hq3 _hq4 _hq5 hq6
    rw [crawlLoop_eq_stop site maxPages maxDepth baseDomain queue visited pages
      fetched h]
    refine ⟨hnd, hsub, hpg, hft, hlen, Or.inr (by dsimp only; omega), ?_⟩
    intro hqe u hu
    by_contra hnv
    obtain ⟨v, dv, ns, hvq, _⟩ := hq6 u hu hnv
    have hqe2 : queue = [] := hqe
    rw [hqe2] at hvq
    simp at hvq

/-- C4: on a site whose reachable same-domain pages (within the depth cap)
are exactly the `pagesList` — all of them fetchable — the crawl visits
exactly `min pagesList.length maxPages` distinct pages, the fetch trace has
no duplicates (no URL is fetched twice) and coincides with the visited
list (as does the page-record list), and the loop stops exactly when the
frontier is empty or the visited count reaches the page cap. -/
theorem c4_crawl_visits_min (site : String → Option (List Node))
    (maxPages maxDepth : Nat) (startUrl : String) (pagesList : List String)
    (res : CrawlRes)
    (hnodup : pagesList.Nodup)
    (hRchar : ∀ u, u ∈ pagesList ↔
      ReachWithin (siteAdj site (crawlBaseDomain startUrl))
        (adjustedStart startUrl) maxDepth u)
    (hfetch : ∀ u ∈ pagesList, (site u).isSome = true)
    (hcrawl : crawl site maxPages maxDepth startUrl = Except.ok res) :
    res.visited.length = min pagesList.length maxPages ∧
    res.fetched.Nodup ∧ res.fetched = res.visited ∧ res.pages = res.visited ∧
    (res.queue = [] ∨ res.visited.length = maxPages) := by
  unfold crawl at hcrawl
  dsimp only at hcrawl
  split at hcrawl
  · simp at hcrawl
  · injection hcrawl with hres
    have hstartmem : (adjustedStart startUrl, 0) ∈
        ([(adjustedStart startUrl, 0)] : List (String × Nat)) := by simp
    have good := crawlLoop_spec site maxPages maxDepth (crawlBaseDomain startUrl)
      (adjustedStart startUrl) pagesList hRchar hfetch
      [(adjustedStart startUrl, 0)] [] [] []
      (by simp) (by simp) (by simp) rfl rfl
      ?_ ?_ ?_ ?_
    · rw [hres] at good
      obtain ⟨hnd, hsub, hpg, hft, hlen, hstop, hcomp⟩ := good
      have hle1 : res.visited.length ≤ pagesList.length :=
        nodup_subset_length_le hnd (by intro u hu; exact hsub u hu)
      refine ⟨?_, hft ▸ hnd, hft, hpg, hstop⟩
      rcases hstop with hqe | hfull
      · have hle2 : pagesList.length ≤ res.visited.length :=
          nodup_subset_length_le hnodup (by intro u hu; exact hcomp hqe u hu)
        omega
      · omega
    · intro e he
      simp only [List.mem_singleton] at he
      subst he
      exact ⟨Nat.zero_le maxDepth, 0, Nat.le_refl 0, ReachN.refl⟩
    · simp
    · intro p hp q hq
      simp only [List.mem_singleton] at hp hq
      subst hp
      subst hq
      omega
    · intro u hu _
      obtain ⟨d, hd, hreach⟩ := (hRchar u).mp hu
      obtain ⟨ns, hpath, hlen2, hnd2⟩ := reachN_simple_path hreach
      refine ⟨adjustedStart startUrl, 0, ns, hstartmem, by simp, hpath,
        by omega, by simp, hnd2⟩

/-- Single-page demonstration site for the C4 witness. -/
def siteW : String → Option (List Node) := fun u =>
  if u = "https://one.test" then some [] else none

def resW : CrawlRes :=
  ⟨["https://one.test"], ["https://one.test"], ["https://one.test"], []⟩

/-- C4 (witness): on a one-page site with page cap 5, the crawl visits
exactly `min 1 5 = 1` page, fetches it once, and stops on an empty
frontier. -/
theorem c4_crawl_visits_min_witness :
    resW.visited.length = min (["https://one.test"] : List String).length 5 ∧
    resW.fetched.Nodup ∧ resW.fetched = resW.visited ∧
    resW.pages = resW.visited ∧
    (resW.queue = [] ∨ resW.visited.length = 5) :=
  c4_crawl_visits_min siteW 5 3 "https://one.test" ["https://one.test"] resW
    (by decide)
    (by
      have honly : ∀ w d2, ReachN (siteAdj siteW (crawlBaseDomain "https://one.test"))
          (adjustedStart "https://one.test") w d2 → w = "https://one.test" := by
        intro w d2 hr2
        induction hr2 with
        | refl => rfl
        | step _ hedge ih =>
          rw [ih] at hedge
          have hadj : siteAdj siteW (crawlBaseDomain "https://one.test")
              "https://one.test" = [] := rfl
          rw [hadj] at hedge
          exact absurd hedge (List.not_mem_nil _)
      intro u
      constructor
      · intro hu
        simp only [List.mem_singleton] at hu
        subst hu
        exact ⟨0, Nat.zero_le 3, ReachN.refl⟩
      · rintro ⟨d, _, hr⟩
        simp [honly u d hr])
    (by decide)
    (by
      unfold crawl
      dsimp only
      rw [if_neg (by decide)]
      rw [crawlLoop_eq_visit siteW 5 3 (crawlBaseDomain "https://one.test")
        (adjustedStart "https://one.test") 0 [] [] [] [] (by decide) (by decide)
        [] rfl]
      show Except.ok (crawlLoop siteW 5 3 (crawlBaseDomain "https://one.test")
        [] ["https://one.test"] ["https://one.test"] ["https://one.test"]) =
        Except.ok resW
      rw [crawlLoop_eq_nil siteW 5 3 (crawlBaseDomain "https://one.test")
        ["https://one.test"] ["https://one.test"] ["https://one.test"]
        (by decide)]
      rfl)

/-! ### C1, C2, C6: the campaign-creation pipeline -/

theorem get_best_platform_ok {env : Env} {db : DB} {ai : Except String AIResult}
    {brand : Option Brand} {business_id : String} {res : RecommendationResult}
    (h : get_best_platform_with_analysis env db ai brand business_id = Except.ok res) :
    res.platform ∈ db.platforms ∧
      res.platform.platform_id ∈
        res.all_recommendations.map (fun rec => rec.platform_id) := by
  unfold get_best_platform_with_analysis at h
  split at h
  · simp at h
  · split at h
    · simp at h
    · try dsimp only at h
      split at h
      · simp at h
      · split at h
        · simp at h
        · rename_i r
          split at h
          · simp at h
          · rename_i recommended_platform hplat
            try dsimp only at h
            split at h
            · simp at h
            · rename_i recommended_rec hfind
              injection h with h2
              subst h2
              dsimp only
              constructor
              · exact List.mem_of_find?_eq_some hplat
              · have hrecmem : recommended_rec ∈ r.all_recommendations :=
                  List.mem_of_find?_eq_some hfind
                have hreceq := List.find?_some hfind
                have hreceq2 : recommended_rec.platform_id =
                    recommended_platform.platform_id := by
                  simpa using hreceq
                exact List.mem_map.mpr ⟨recommended_rec, hrecmem, hreceq2⟩

/-- C1: every campaign successfully constructed and persisted by
`create_campaign` has its `recommended_platform_id` (always present on the
success path) inside its `supported_platform_ids`: the recommended platform
was fetched from the catalog, and its id appears in the ranked list that
`supported_platform_ids` is built from, so the `$in` fetch keeps it. -/
theorem c1_recommended_id_in_supported (env : Env) (db : DB)
    (ai : Except String AIResult) (cd : CampaignCreate) (user_id : String)
    (db2 : DB) (c : Campaign)
    (h : create_campaign env db ai cd user_id = (db2, Except.ok c)) :
    ∀ pid, c.recommended_platform_id = some pid →
      pid ∈ c.supported_platform_ids := by
  intro pid hp
  unfold create_campaign at h
  split at h
  · simp at h
  · split at h
    · simp at h
    · try dsimp only at h
      split at h
      · simp at h
      · split at h
        · simp at h
        · rename_i recommendation_result hrec
          try dsimp only at h
          injection h with hdb hc
          injection hc with hc2
          subst hc2
          simp only [Campaign.mk.injEq] at hp ⊢
          obtain ⟨hmemdb, hmemids⟩ := get_best_platform_ok hrec
          have hpid : pid = recommendation_result.platform.platform_id := by
            simpa using hp.symm
          subst hpid
          have hfilter : recommendation_result.platform ∈
              get_platforms_by_ids db
                (recommendation_result.all_recommendations.map
                  (fun rec => rec.platform_id)) := by
            unfold get_platforms_by_ids
            refine List.mem_filter.mpr ⟨hmemdb, ?_⟩
            exact List.elem_iff.mpr hmemids
          exact List.mem_map.mpr ⟨recommendation_result.platform, hfilter, rfl⟩

/-- C1 (witness): on the demo inputs, creation succeeds and the recommended
platform id 1 is among the supported ids. -/
theorem c1_recommended_id_in_supported_witness :
    (1 : Int) ∈
      (Campaign.mk "b1" "u1" "Launch" "https://acme.example/" none
        ConversionGoal.websiteTraffic ConversionGoalIcon.cursorClick false
        "user" "INR" 0 BiddingStrategyType.maximizeClicks
        [⟨"MAXIMIZE_CLICKS", "maximize_clicks", "target_amount"⟩]
        (some 1) [1, 2] [⟨"en", "EN", "en"⟩] ["area1"] (some "retail")
        CampaignStatus.draft).supported_platform_ids :=
  c1_recommended_id_in_supported envDemo dbDemo (Except.ok aiDemo) cdDemo "u1"
    ({ dbDemo with campaigns :=
      [Campaign.mk "b1" "u1" "Launch" "https://acme.example/" none
        ConversionGoal.websiteTraffic ConversionGoalIcon.cursorClick false
        "user" "INR" 0 BiddingStrategyType.maximizeClicks
        [⟨"MAXIMIZE_CLICKS", "maximize_clicks", "target_amount"⟩]
        (some 1) [1, 2] [⟨"en", "EN", "en"⟩] ["area1"] (some "retail")
        CampaignStatus.draft] })
    (Campaign.mk "b1" "u1" "Launch" "https://acme.example/" none
      ConversionGoal.websiteTraffic ConversionGoalIcon.cursorClick false
      "user" "INR" 0 BiddingStrategyType.maximizeClicks
      [⟨"MAXIMIZE_CLICKS", "maximize_clicks", "target_amount"⟩]
      (some 1) [1, 2] [⟨"en", "EN", "en"⟩] ["area1"] (some "retail")
      CampaignStatus.draft)
    rfl 1 rfl

/-- C2 (amended): only when the RECOMMENDED platform id is absent from the
catalog does the orchestrator raise and campaign creation fail with the
database unchanged; ids cited only in the ranked recommendation list are
not cross-referenced (see the counterexample: they are silently dropped
from `supported_platform_ids`). -/
theorem c2_unknown_recommended_id_fails (env : Env) (db : DB)
    (cd : CampaignCreate) (user_id : String) (r : AIResult) (b : Business)
    (g : ConversionGoal) (k m : String)
    (hgem : env.gemini_available = true)
    (hkey : envApiKey env = some k)
    (hmodel : envModelName env = some m)
    (hbiz : db.businesses.find? (fun bb => bb.id == cd.business_id) = some b)
    (hgoal : resolveConversionGoal cd = Except.ok g)
    (hmiss : get_platform_by_id db r.recommended_platform_id = none) :
    create_campaign env db (Except.ok r) cd user_id =
      (db, Except.error (AppError.valueError
        ("AI recommended platform ID " ++ toString r.recommended_platform_id ++
          " not found in database"))) := by
  unfold create_campaign
  rw [hbiz, hgoal]
  try dsimp only
  rw [hmodel]
  unfold get_best_platform_with_analysis
  rw [hgem]
  rw [if_neg (by decide)]
  rw [hkey]
  try dsimp only
  rw [hmodel]
  try dsimp only
  rw [hmiss]
  try rfl

/-- C2 (amended, witness): with a catalog holding only platform 1 and an AI
response recommending the unknown id 99, creation fails and the database is
unchanged. -/
theorem c2_unknown_recommended_id_fails_witness :
    create_campaign envDemo dbC2 (Except.ok aiC2bad) cdDemo "u1" =
      (dbC2, Except.error (AppError.valueError
        "AI recommended platform ID 99 not found in database")) :=
  c2_unknown_recommended_id_fails envDemo dbC2 cdDemo "u1" aiC2bad
    ⟨"b1", "Acme", some "retail", none⟩ ConversionGoal.websiteTraffic
    "api-key" "gemini-2.0-flash" rfl rfl rfl rfl rfl rfl

/-- C2 (counterexample): the AI response `aiC2` cites platform id 99 in its
ranked list; 99 is absent from `dbC2`'s catalog — yet campaign creation
SUCCEEDS and persists a campaign (with 99 silently missing from
`supported_platform_ids`), contradicting the claim that any unknown cited
id makes creation fail without persisting. -/
theorem c2_unknown_ranked_id_counterexample :
    ((99 : Int) ∈ aiC2.all_recommendations.map (fun rec => rec.platform_id)) ∧
    get_platform_by_id dbC2 99 = none ∧
    (create_campaign envDemo dbC2 (Except.ok aiC2) cdDemo "u1").2.isOk = true ∧
    (create_campaign envDemo dbC2 (Except.ok aiC2) cdDemo "u1").1.campaigns.length = 1 := by
  refine ⟨?_, rfl, rfl, rfl⟩
  decide

/-- C6: when the referenced business does not exist, `create_campaign`
raises the not-found error as its very first step: the returned state is
exactly the input state — no campaign is persisted and no brand is created
or modified. -/
theorem c6_missing_business_state_unchanged (env : Env) (db : DB)
    (ai : Except String AIResult) (cd : CampaignCreate) (user_id : String)
    (h : db.businesses.find? (fun b => b.id == cd.business_id) = none) :
    create_campaign env db ai cd user_id =
      (db, Except.error (AppError.notFound "Business" cd.business_id)) := by
  unfold create_campaign
  rw [h]

/-- C6 (witness): an empty database yields the not-found error and stays
empty. -/
theorem c6_missing_business_state_unchanged_witness :
    create_campaign envDemo ⟨[], [], [], []⟩ (Except.ok aiDemo) cdDemo "u1" =
      (⟨[], [], [], []⟩, Except.error (AppError.notFound "Business" "b1")) :=
  c6_missing_business_state_unchanged envDemo ⟨[], [], [], []⟩
    (Except.ok aiDemo) cdDemo "u1" rfl

/-- C10 (witness): a `session.created` event with a signature header is
acknowledged with success and leaves the user store unchanged. -/
theorem c10_webhook_ignores_signature_witness :
    clerk_webhook
        ⟨⟨some "session.created", ⟨none, [], none, none, none⟩⟩,
          [("svix-signature", "v1,abc")]⟩ [] =
      ([], Except.ok ⟨"success", some "session.created"⟩) :=
  c10_webhook_ignores_signature.2
    ⟨some "session.created", ⟨none, [], none, none, none⟩⟩
    [("svix-signature", "v1,abc")] [] "session.created" rfl
    (by decide) (by decide) (by decide)

end AdMaster
